import Mathlib

/-!
A shallow embedding of the pagination engine of the RedBookCards repository
(`src/utils/paginator.py`, class `SmartPaginator`), together with proofs that
settle the claims of the specification against it.

Modelling conventions:
* Python `int` values are embedded as `Int`; Python `//` (floor division)
  is `Int.fdiv`, Python `int()` truncation of a nonnegative/negative real is
  `Int.tdiv` on the exact rational numerator/denominator.  The source's three
  float comparisons (`content_height * 0.3`, `* 0.35`, `* 0.4`) are embedded
  exactly as integer comparisons scaled by 10 or 100; for the three page-size
  presets of the source these agree with IEEE double evaluation.
* HTML is embedded as a tree (`Node`), standing for the BeautifulSoup parse
  tree (`html.parser` lower-cases tag names at parse time).  `str(node)`
  serialization is `renderNode`; a `BeautifulSoup` document object is a tag
  named "[document]" whose serialization is the concatenation of its
  children, as in bs4.
* `optimize_pages` re-parses each page string through BeautifulSoup.  String
  to tree parsing is the single step that is not reimplemented; the
  optimizer therefore takes the string-to-tree function `reparse` as an
  explicit parameter and the theorems quantify over it (or instantiate it
  with the tree the real parser would produce on the concrete strings
  involved).
-/

namespace RedBookCards

/-- The `type` field of a `PageElement` (a Python string in the source;
the set of values actually used is closed). -/
inductive EType where
  | heading
  | paragraph
  | paragraphWithImages
  | list
  | code
  | blockquote
  | table
  | hr
  | text
  | pagebreak
  | image
  | containerWithImages
  | mixedWithImages
deriving DecidableEq, Repr

/-- `PageElement` dataclass of `paginator.py`. -/
structure PageElement where
  type : EType
  content : String
  text : String
  level : Int := 0
  height : Int := 0
  canBreak : Bool := true
  isForcedBreak : Bool := false
deriving DecidableEq, Repr

/-- `SmartPaginator.ELEMENT_HEIGHTS` dictionary. -/
def elementHeights : String → Int
  | "h1" => 90
  | "h2" => 70
  | "h3" => 60
  | "h4" => 50
  | "h5" => 45
  | "h6" => 40
  | "p_base" => 25
  | "p_line" => 28
  | "li" => 35
  | "code_block" => 40
  | "code_line" => 24
  | "blockquote" => 60
  | "blockquote_line" => 28
  | "table_header" => 45
  | "table_row" => 40
  | "hr" => 35
  | "margin_bottom" => 20
  | _ => 0

/-- `SmartPaginator.CHAR_WIDTH` (average CJK character width, px). -/
def CHAR_WIDTH : Int := 16

/-- `SmartPaginator.CHAR_WIDTH_EN` (average Latin character width, px). -/
def CHAR_WIDTH_EN : Int := 9

/-- `SmartPaginator.PAGE_SIZES` dictionary:
(width, height, padding_top, padding_bottom, padding_sides). -/
def pageSizes : String → Option (Int × Int × Int × Int × Int)
  | "small" => some (720, 960, 35, 50, 30)
  | "medium" => some (1080, 1440, 45, 70, 40)
  | "large" => some (1440, 1920, 55, 90, 50)
  | _ => none

/-- The per-instance configuration produced by `set_page_size`. -/
structure Config where
  sizeName : String
  pageWidth : Int
  pageHeight : Int
  paddingTop : Int
  paddingBottom : Int
  paddingSides : Int
  contentWidth : Int
  contentHeight : Int
  headingKeepWith : Int
deriving DecidableEq, Repr

/-- `SmartPaginator.set_page_size`: unknown preset names fall back to
"medium"; content box and `HEADING_KEEP_WITH` are derived from the preset. -/
def mkConfig (size : String) : Config :=
  let size := if (pageSizes size).isSome then size else "medium"
  match pageSizes size with
  | some (w, h, pt, pb, ps) =>
      { sizeName := size
        pageWidth := w
        pageHeight := h
        paddingTop := pt
        paddingBottom := pb
        paddingSides := ps
        contentWidth := w - ps * 2
        contentHeight := h - pt - pb
        headingKeepWith :=
          if size = "small" then 100 else if size = "large" then 200 else 150 }
  | none =>
      { sizeName := size, pageWidth := 0, pageHeight := 0, paddingTop := 0
        paddingBottom := 0, paddingSides := 0, contentWidth := 0
        contentHeight := 0, headingKeepWith := 150 }

/-- Python `str.strip()` (strip leading and trailing whitespace). -/
def pyStrip (s : String) : String :=
  ⟨((s.data.dropWhile Char.isWhitespace).reverse.dropWhile Char.isWhitespace).reverse⟩

/-- Python falsiness of `s.strip()` combined with falsiness of `s` itself:
true iff every character of `s` is whitespace (including the empty string).
Models `not s or not s.strip()`. -/
def pyIsBlank (s : String) : Bool :=
  s.data.all Char.isWhitespace

/-- Lower-casing on code points, modelling Python `str.lower` for tag names. -/
def strLower (s : String) : String := ⟨s.data.map Char.toLower⟩

/-- Python `str.split()` with no argument (split on whitespace); empty pieces
are irrelevant for the membership tests the source performs. -/
def splitWsAux : List Char → List Char → List String
  | [], acc => [⟨acc.reverse⟩]
  | c :: cs, acc =>
    if c.isWhitespace then ⟨acc.reverse⟩ :: splitWsAux cs []
    else splitWsAux cs (c :: acc)

/-- See `splitWsAux`. -/
def splitWs (s : String) : List String := splitWsAux s.data []

/-- Digits-only parse helper for `pyInt`. -/
def pyIntAux : List Char → Option Nat
  | [] => none
  | cs => if cs.all Char.isDigit then
      some (cs.foldl (fun a c => a * 10 + (c.toNat - 48)) 0)
    else none

/-- Python `int(string)`: optional surrounding whitespace, optional sign,
decimal digits; anything else raises (modelled as `none`). -/
def pyInt (s : String) : Option Int :=
  match (pyStrip s).data with
  | '-' :: rest => (pyIntAux rest).map (fun n => -(n : Int))
  | '+' :: rest => (pyIntAux rest).map (fun n => (n : Int))
  | cs => (pyIntAux cs).map (fun n => (n : Int))

/-- Chinese character test `[一-鿿]` used by
`_calculate_paragraph_height`. -/
def isCJK (c : Char) : Bool := 0x4e00 ≤ c.toNat && c.toNat ≤ 0x9fff

/-- `SmartPaginator._calculate_text_height`. -/
def calculateTextHeight (cfg : Config) (text : String) : Int :=
  if text.isEmpty then 0
  else
    let charsPerLine := cfg.contentWidth.fdiv CHAR_WIDTH
    let totalChars : Int := text.length
    let estimatedLines := max 1 ((totalChars + charsPerLine - 1).fdiv charsPerLine)
    elementHeights "p_base" + estimatedLines * elementHeights "p_line"

/-- `SmartPaginator._calculate_paragraph_height`.  The source computes
`lines = max(1, int(len(text) / (content_width / avg_char_width)) + 1)` in
float arithmetic with `avg_char_width = (16*chinese + 9*english)/len(text)`;
the quantity truncated is exactly `(16*chinese + 9*english)/content_width`,
embedded here with exact integer arithmetic. -/
def calculateParagraphHeight (cfg : Config) (text : String) : Int :=
  if text.isEmpty then elementHeights "p_base"
  else
    let chinese : Int := (text.data.filter isCJK).length
    let english : Int := (text.length : Int) - chinese
    let lines := max 1 ((CHAR_WIDTH * chinese + CHAR_WIDTH_EN * english).tdiv cfg.contentWidth + 1)
    elementHeights "p_base" + lines * elementHeights "p_line" + elementHeights "margin_bottom"

/-- `SmartPaginator._calculate_blockquote_height`. -/
def calculateBlockquoteHeight (cfg : Config) (text : String) : Int :=
  if text.isEmpty then elementHeights "blockquote"
  else
    let effectiveWidth := cfg.contentWidth - 60
    let charsPerLine := effectiveWidth.fdiv CHAR_WIDTH
    let lines := max 1 (((text.length : Int) + charsPerLine - 1).fdiv charsPerLine)
    elementHeights "blockquote" + lines * elementHeights "blockquote_line" + elementHeights "margin_bottom"

mutual
/-- The BeautifulSoup parse tree: `text` is a `NavigableString`, `comment`
a `Comment`, `tag` a `Tag` with its attributes and children.  A whole
document is a tag named "[document]". -/
inductive Node where
  | text (s : String)
  | comment (s : String)
  | tag (name : String) (attrs : List (String × String)) (children : NodeList)
deriving Repr
/-- Children lists of `Node` (mutual with it so that all recursions are
structural and kernel-computable). -/
inductive NodeList where
  | nil
  | cons (n : Node) (ns : NodeList)
deriving Repr
end

/-- Convert a `NodeList` to a `List Node`. -/
def NodeList.toList : NodeList → List Node
  | .nil => []
  | .cons n ns => n :: NodeList.toList ns

mutual
/-- Structural equality of nodes, modelling BeautifulSoup `__eq__`
(used by `list.index` in the source). -/
def Node.beq : Node → Node → Bool
  | .text a, .text b => a == b
  | .comment a, .comment b => a == b
  | .tag n1 a1 c1, .tag n2 a2 c2 => n1 == n2 && a1 == a2 && NodeList.beq c1 c2
  | _, _ => false
/-- See `Node.beq`. -/
def NodeList.beq : NodeList → NodeList → Bool
  | .nil, .nil => true
  | .cons a as, .cons b bs => Node.beq a b && NodeList.beq as bs
  | _, _ => false
end

/-- `list(node.children).index(child)`: index of the first child equal
to the given node. -/
def indexOfNode (l : List Node) (x : Node) : Nat :=
  match l with
  | [] => 0
  | y :: ys => if Node.beq y x then 0 else indexOfNode ys x + 1

/-- Attribute lookup, `node.get(key)` / `node[key]`. -/
def lookupAttr (attrs : List (String × String)) (k : String) : Option String :=
  (attrs.find? (fun p => p.1 == k)).map (fun p => p.2)

/-- Tags serialized in self-closing form by bs4 (the ones relevant here). -/
def voidTags : List String := ["img", "hr", "br", "meta", "link", "input"]

/-- Attribute serialization for `str(node)`. -/
def renderAttrs (attrs : List (String × String)) : String :=
  attrs.foldr (fun p acc => " " ++ p.1 ++ "=\x22" ++ p.2 ++ "\x22" ++ acc) ""

mutual
/-- `str(node)` serialization of a parse tree node.  A "[document]" node
(the soup object itself) serializes as the concatenation of its children,
as in bs4. -/
def renderNode : Node → String
  | .text s => s
  | .comment s => "<!--" ++ s ++ "-->"
  | .tag name attrs children =>
      if name = "[document]" then renderNodeList children
      else if voidTags.contains name then
        "<" ++ name ++ renderAttrs attrs ++ "/>"
      else
        "<" ++ name ++ renderAttrs attrs ++ ">" ++ renderNodeList children ++ "</" ++ name ++ ">"
/-- See `renderNode`. -/
def renderNodeList : NodeList → String
  | .nil => ""
  | .cons n ns => renderNode n ++ renderNodeList ns
end

/-- Serialization of a document given as a list of top-level nodes. -/
def renderNodes (l : List Node) : String :=
  match l with
  | [] => ""
  | n :: ns => renderNode n ++ renderNodes ns

mutual
/-- `node.get_text(strip=True)`: concatenation of all descendant strings,
each stripped (comments are not included). -/
def getTextStrip : Node → String
  | .text s => pyStrip s
  | .comment _ => ""
  | .tag _ _ children => getTextStripList children
/-- See `getTextStrip`. -/
def getTextStripList : NodeList → String
  | .nil => ""
  | .cons n ns => getTextStrip n ++ getTextStripList ns
end

mutual
/-- `node.get_text()` without stripping (used for code blocks). -/
def getTextRaw : Node → String
  | .text s => s
  | .comment _ => ""
  | .tag _ _ children => getTextRawList children
/-- See `getTextRaw`. -/
def getTextRawList : NodeList → String
  | .nil => ""
  | .cons n ns => getTextRaw n ++ getTextRawList ns
end

mutual
/-- Number of tags named `t` in the subtree rooted at the node, the node
itself included (helper for `find_all`). -/
def countTagIn (t : String) : Node → Nat
  | .text _ => 0
  | .comment _ => 0
  | .tag n _ cs => (if n = t then 1 else 0) + countTagInList t cs
/-- See `countTagIn`. -/
def countTagInList (t : String) : NodeList → Nat
  | .nil => 0
  | .cons n ns => countTagIn t n + countTagInList t ns
end

/-- `len(node.find_all(t))`: number of descendant tags named `t`
(the node itself excluded). -/
def countTagDesc (t : String) : Node → Nat
  | .tag _ _ cs => countTagInList t cs
  | _ => 0

/-- `SmartPaginator._is_pagebreak_marker`: a `div` carrying the
`pagebreak-marker` class or `data-pagebreak="true"`. -/
def isPagebreakMarker : Node → Bool
  | .tag name attrs _ =>
      strLower name = "div" &&
        ((splitWs ((lookupAttr attrs "class").getD "")).contains "pagebreak-marker" ||
          lookupAttr attrs "data-pagebreak" == some "true")
  | _ => false

/-- The `PageElement` emitted for a pagebreak marker. -/
def pagebreakElem : PageElement :=
  { type := .pagebreak, content := "", text := "", level := 999, height := 0,
    canBreak := true, isForcedBreak := true }

/-- Container tag names recursed into by `_flatten_parse`. -/
def containerTags : List String :=
  ["div", "section", "article", "main", "aside", "nav", "header", "footer"]

/-- Heading levels `h1`..`h6`. -/
def headingLevel : String → Option Int
  | "h1" => some 1
  | "h2" => some 2
  | "h3" => some 3
  | "h4" => some 4
  | "h5" => some 5
  | "h6" => some 6
  | _ => none

/-- Direct `img` children test used by the container branch of
`_flatten_parse`. -/
def isImgTag : Node → Bool
  | .tag n _ _ => strLower n = "img"
  | _ => false

/-- The image-height estimate of the `img` branch of `_flatten_parse`:
350 px default, overridden when both `width` and `height` attributes parse
as integers (scaled to the content width when too wide; `int(height*ratio)`
truncates toward zero, `Int.tdiv`). -/
def imgHeightEstimate (cfg : Config) (attrs : List (String × String)) : Int :=
  match lookupAttr attrs "width", lookupAttr attrs "height" with
  | some ws, some hs =>
      match pyInt ws, pyInt hs with
      | some w, some h =>
          if w > cfg.contentWidth then (h * cfg.contentWidth).tdiv w else h
      | _, _ => 350
  | _, _ => 350

/-- The `sub_elements` loop of the plain-paragraph branch of
`_flatten_parse`: for each direct pagebreak-marker child, emit the
serialized content standing before the first equal child (if non-blank)
as a paragraph, followed by a pagebreak.  Content after the last marker is
not emitted, as in the source. -/
def pSubElements (cfg : Config) (kids : List Node) : List PageElement :=
  kids.foldl (fun acc child =>
    if isPagebreakMarker child then
      let textBefore := renderNodes (kids.take (indexOfNode kids child))
      let acc :=
        if (pyStrip textBefore).isEmpty then acc
        else acc ++
          [{ type := .paragraph,
             content := "<p>" ++ textBefore ++ "</p>",
             text := textBefore,
             height := calculateParagraphHeight cfg textBefore,
             canBreak := true }]
      acc ++ [pagebreakElem]
    else acc) []

mutual
/-- `SmartPaginator._flatten_parse`: depth-first flattening of a parse tree
into an ordered `PageElement` list. -/
def flattenParse (cfg : Config) : Node → List PageElement
  | .text s =>
      let t := pyStrip s
      if t.isEmpty then []
      else
        [{ type := .text, content := "<p>" ++ t ++ "</p>", text := t,
           height := calculateTextHeight cfg t, canBreak := true }]
  | .comment _ => []
  | .tag name attrs children =>
      if isPagebreakMarker (.tag name attrs children) then [pagebreakElem]
      else
        let node := Node.tag name attrs children
        let tagName := strLower name
        if tagName = "img" then
          let alt := (lookupAttr attrs "alt").getD "图片"
          [{ type := .image, content := renderNode node, text := alt,
             height := imgHeightEstimate cfg attrs + elementHeights "margin_bottom",
             canBreak := false }]
        else
          match headingLevel tagName with
          | some level =>
              [{ type := .heading, content := renderNode node,
                 text := getTextStrip node, level := level,
                 height := elementHeights tagName + elementHeights "margin_bottom",
                 canBreak := false }]
          | none =>
            if tagName = "p" then
              let imgs := countTagDesc "img" node
              if imgs > 0 then
                let text := getTextStrip node
                [{ type := .paragraphWithImages, content := renderNode node,
                   text := text,
                   height := calculateParagraphHeight cfg text + (imgs : Int) * 350,
                   canBreak := false }]
              else
                let kids := children.toList
                if kids.any isPagebreakMarker then pSubElements cfg kids
                else
                  let text := getTextStrip node
                  if text.isEmpty then []
                  else
                    [{ type := .paragraph, content := renderNode node,
                       text := text,
                       height := calculateParagraphHeight cfg text,
                       canBreak := true }]
            else if tagName = "ul" || tagName = "ol" then
              let items := countTagDesc "li" node
              let imgs := countTagDesc "img" node
              [{ type := .list, content := renderNode node,
                 text := getTextStrip node,
                 height := (items : Int) * elementHeights "li" + (imgs : Int) * 350 +
                   elementHeights "margin_bottom",
                 canBreak := decide (items > 3) && decide (imgs = 0) }]
            else if tagName = "pre" then
              let text := getTextRaw node
              let lines : Int := (text.data.count '\n' : Int) + 1
              [{ type := .code, content := renderNode node, text := text,
                 height := elementHeights "code_block" + lines * elementHeights "code_line" +
                   elementHeights "margin_bottom",
                 canBreak := decide (lines > 10) }]
            else if tagName = "blockquote" then
              let imgs := countTagDesc "img" node
              let text := getTextStrip node
              [{ type := .blockquote, content := renderNode node, text := text,
                 height := calculateBlockquoteHeight cfg text + (imgs : Int) * 350,
                 canBreak := decide (imgs = 0) }]
            else if tagName = "table" then
              let rows := countTagDesc "tr" node
              let headers := countTagDesc "th" node
              [{ type := .table, content := renderNode node,
                 text := getTextStrip node,
                 height := (headers : Int) * elementHeights "table_header" +
                   ((rows : Int) - (headers : Int)) * elementHeights "table_row" +
                   elementHeights "margin_bottom",
                 canBreak := decide (rows > 5) }]
            else if tagName = "hr" then
              [{ type := .hr, content := renderNode node, text := "",
                 height := elementHeights "hr", canBreak := true }]
            else if containerTags.contains tagName then
              let directImgs := children.toList.countP isImgTag
              if directImgs > 0 then
                let text := getTextStrip node
                let textHeight := if text.isEmpty then 0 else calculateTextHeight cfg text
                [{ type := .containerWithImages, content := renderNode node,
                   text := text,
                   height := textHeight + (directImgs : Int) * 350,
                   canBreak := false }]
              else flattenParseList cfg children
            else
              let imgs := countTagDesc "img" node
              if imgs > 0 then
                let text := getTextStrip node
                let textHeight := if text.isEmpty then 0 else calculateTextHeight cfg text
                [{ type := .mixedWithImages, content := renderNode node,
                   text := text,
                   height := textHeight + (imgs : Int) * 350,
                   canBreak := false }]
              else
                let text := getTextStrip node
                if ¬ text.isEmpty then
                  let kids := flattenParseList cfg children
                  if kids.isEmpty then
                    [{ type := .text, content := renderNode node, text := text,
                       height := calculateTextHeight cfg text, canBreak := true }]
                  else kids
                else flattenParseList cfg children
/-- Flattening of a children list (`elements.extend(self._flatten_parse(child))`). -/
def flattenParseList (cfg : Config) : NodeList → List PageElement
  | .nil => []
  | .cons n ns => flattenParse cfg n ++ flattenParseList cfg ns
end

/-- Build a `NodeList` from a `List Node`. -/
def nodesOf : List Node → NodeList
  | [] => .nil
  | n :: ns => .cons n (nodesOf ns)

/-- `SmartPaginator.parse_html_to_elements`: the source applies
`_flatten_parse` to the soup object itself, a tag named "[document]" whose
children are the document's top-level nodes. -/
def parseHtmlToElements (cfg : Config) (doc : List Node) : List PageElement :=
  flattenParse cfg (.tag "[document]" [] (nodesOf doc))

end RedBookCards

namespace RedBookCards

/-- `SmartPaginator._try_split_paragraph`: the source always returns
`None` ("暂不分割段落，保持段落完整性"). -/
def trySplitParagraph (_e : PageElement) (_availableHeight : Int) :
    Option (PageElement × PageElement) :=
  none

/-- `'\n'.join(...)`. -/
def joinNl : List String → String
  | [] => ""
  | [x] => x
  | x :: y :: xs => x ++ "\n" ++ joinNl (y :: xs)

/-- `element.type != 'pagebreak'`: the test selecting content-bearing
elements. -/
def isContentElem (e : PageElement) : Bool := e.type != EType.pagebreak

/-- `SmartPaginator._elements_to_html`: pagebreak markers are skipped, the
rest joined with newlines. -/
def elementsToHtml (es : List PageElement) : String :=
  joinNl ((es.filter isContentElem).map (fun e => e.content))

/-- The mutable state of the `paginate` loop.  Pages are kept as element
lists here; the source stringifies with `_elements_to_html` at append time,
which commutes with keeping the lists and mapping at the end (an explicitly
empty page is the empty element list). -/
structure PagState where
  pages : List (List PageElement)
  forced : List Nat
  current : List PageElement
  currentHeight : Int
  consecutiveBreaks : Nat
deriving DecidableEq, Repr

/-- Initial `paginate` loop state. -/
def initState : PagState := ⟨[], [], [], 0, 0⟩

/-- One iteration of the `paginate` loop of `SmartPaginator.paginate`
(the loop index always advances by one). -/
def step (cfg : Config) (s : PagState) (e : PageElement) : PagState :=
  if e.type = .pagebreak then
    if ¬ s.current.isEmpty then
      { pages := s.pages ++ [s.current]
        forced := s.forced ++ [s.pages.length]
        current := []
        currentHeight := 0
        consecutiveBreaks := s.consecutiveBreaks + 1 }
    else if s.consecutiveBreaks + 1 > 1 then
      { pages := s.pages ++ [[]]
        forced := s.forced ++ [s.pages.length]
        current := []
        currentHeight := 0
        consecutiveBreaks := s.consecutiveBreaks + 1 }
    else { s with consecutiveBreaks := s.consecutiveBreaks + 1 }
  else
    let s1 : PagState :=
      if e.type = .heading ∧
          s.currentHeight + e.height + cfg.headingKeepWith > cfg.contentHeight ∧
          ¬ s.current.isEmpty then
        { s with
          pages := s.pages ++ [s.current]
          current := []
          currentHeight := 0
          consecutiveBreaks := 0 }
      else { s with consecutiveBreaks := 0 }
    if s1.currentHeight + e.height > cfg.contentHeight then
      if e.type = .paragraph ∧ 10 * e.height > 3 * cfg.contentHeight then
        match trySplitParagraph e (cfg.contentHeight - s1.currentHeight) with
        | some (firstPart, secondPart) =>
            { s1 with
              pages := s1.pages ++ [s1.current ++ [firstPart]]
              current := [secondPart]
              currentHeight := secondPart.height }
        | none =>
            { s1 with
              pages := s1.pages ++ (if s1.current.isEmpty then [] else [s1.current])
              current := [e]
              currentHeight := e.height }
      else
        { s1 with
          pages := s1.pages ++ (if s1.current.isEmpty then [] else [s1.current])
          current := [e]
          currentHeight := e.height }
    else
      { s1 with
        current := s1.current ++ [e]
        currentHeight := s1.currentHeight + e.height }

/-- The `paginate` loop run over a whole element list. -/
def runPaginate (cfg : Config) (elems : List PageElement) : PagState :=
  elems.foldl (step cfg) initState

/-- The sealed pages of a `paginate` run, final partial page included,
as element lists. -/
def paginateBlocks (cfg : Config) (elems : List PageElement) :
    List (List PageElement) :=
  let s := runPaginate cfg elems
  if s.current.isEmpty then s.pages else s.pages ++ [s.current]

/-- `SmartPaginator.paginate`: returns the page HTML strings and the
`forced_break_pages` index set accumulated during the run.  The document is
given as its parse tree (top-level node list); `html_content` is its
serialization. -/
def paginate (cfg : Config) (doc : List Node) : List String × List Nat :=
  let htmlContent := renderNodes doc
  let elements := parseHtmlToElements cfg doc
  if elements.isEmpty then
    (if htmlContent.isEmpty then [] else [htmlContent], [])
  else
    let pages := paginateBlocks cfg elements
    if pages.isEmpty then ([htmlContent], (runPaginate cfg elements).forced)
    else (pages.map elementsToHtml, (runPaginate cfg elements).forced)

/-- The numerator of `merge_threshold` over 100:
`0.35 if self.page_size_name == "small" else 0.4`. -/
def mergeThresholdNum (cfg : Config) : Int :=
  if cfg.sizeName = "small" then 35 else 40

/-- `sum(e.height for e in elements)`. -/
def sumHeights (es : List PageElement) : Int :=
  es.foldl (fun a e => a + e.height) 0

/-- The height `optimize_pages` re-estimates for a page string: the page is
re-parsed by BeautifulSoup (`reparse`, see the module docstring) and the
element heights are summed. -/
def reEstimate (cfg : Config) (reparse : String → List Node) (page : String) : Int :=
  sumHeights (parseHtmlToElements cfg (reparse page))

/-- The `while i < len(pages)` loop of `SmartPaginator.optimize_pages`.
`fuel` bounds the number of iterations (the caller passes `pages.length`,
which suffices since `i` strictly increases); the comparison
`current_height < content_height * merge_threshold` is embedded exactly as
`100 * current_height < mergeThresholdNum * content_height`. -/
def optLoop (cfg : Config) (reparse : String → List Node) (pages : List String)
    (forced : List Nat) : Nat → Nat → List String
  | 0, _ => []
  | fuel + 1, i =>
    if i < pages.length then
      let cur := pages.getD i ""
      if forced.contains i then
        cur :: optLoop cfg reparse pages forced fuel (i + 1)
      else if pyIsBlank cur then
        optLoop cfg reparse pages forced fuel (i + 1)
      else
        let curH := reEstimate cfg reparse cur
        let merged : Option String :=
          if decide (100 * curH < mergeThresholdNum cfg * cfg.contentHeight) &&
              decide (i < pages.length - 1) then
            if ¬ forced.contains (i + 1) then
              let nxt := pages.getD (i + 1) ""
              if ¬ pyIsBlank nxt then
                let nxtH := reEstimate cfg reparse nxt
                if curH + nxtH ≤ cfg.contentHeight then some (cur ++ nxt)
                else none
              else none
            else none
          else none
        match merged with
        | some m => m :: optLoop cfg reparse pages forced fuel (i + 2)
        | none => cur :: optLoop cfg reparse pages forced fuel (i + 1)
    else []

/-- `SmartPaginator.optimize_pages`. -/
def optimizePages (cfg : Config) (reparse : String → List Node)
    (forced : List Nat) (pages : List String) : List String :=
  if pages.length ≤ 1 then pages
  else
    let optimized := optLoop cfg reparse pages forced pages.length 0
    if optimized.isEmpty then [""] else optimized

/-- The full pipeline as invoked by the preview widget:
`paginate` followed by `optimize_pages` on its result, with the
`forced_break_pages` recorded by the run. -/
def pipelineRun (cfg : Config) (reparse : String → List Node)
    (doc : List Node) : List String :=
  let pf := paginate cfg doc
  optimizePages cfg reparse pf.2 pf.1

end RedBookCards

namespace RedBookCards

/-- Concatenation of a list of strings (no separator): the "concatenation
of all output pages' HTML". -/
def concatAll : List String → String
  | [] => ""
  | s :: ss => s ++ concatAll ss

/-- Remove every newline character.  `_elements_to_html` inserts a single
`'\n'` between adjacent blocks of one page; equality up to `stripNl`
therefore means equality of all block content with page-internal
separators (and page boundaries) disregarded. -/
def stripNl (s : String) : String := ⟨s.data.filter (fun c => c != '\n')⟩

theorem stripNl_append (a b : String) : stripNl (a ++ b) = stripNl a ++ stripNl b := by
  apply String.ext
  simp [stripNl, String.data_append]

theorem stripNl_newline : stripNl "\n" = "" := by decide

theorem concatAll_append (a b : List String) :
    concatAll (a ++ b) = concatAll a ++ concatAll b := by
  induction a with
  | nil => simp [concatAll]
  | cons x xs ih => simp [concatAll, ih, String.append_assoc]

theorem stripNl_concatAll (l : List String) :
    stripNl (concatAll l) = concatAll (l.map stripNl) := by
  induction l with
  | nil => rfl
  | cons x xs ih => simp [concatAll, stripNl_append, ih]

theorem stripNl_joinNl (l : List String) :
    stripNl (joinNl l) = stripNl (concatAll l) := by
  induction l with
  | nil => rfl
  | cons x xs ih =>
    cases xs with
    | nil => simp [joinNl, concatAll]
    | cons y ys =>
      simp only [joinNl, concatAll, stripNl_append] at *
      rw [stripNl_newline]
      simp [ih]

theorem pyIsBlank_append (a b : String) :
    pyIsBlank (a ++ b) = (pyIsBlank a && pyIsBlank b) := by
  simp [pyIsBlank, String.data_append]

theorem pyIsBlank_joinNl_cons (c : String) (rest : List String)
    (h : pyIsBlank (joinNl (c :: rest)) = true) : pyIsBlank c = true := by
  cases rest with
  | nil => simpa [joinNl] using h
  | cons y ys =>
    simp only [joinNl, pyIsBlank_append, Bool.and_eq_true] at h
    exact h.1.1

end RedBookCards

namespace RedBookCards

theorem optLoop_zero (cfg : Config) (reparse : String → List Node)
    (pages : List String) (forced : List Nat) (i : Nat) :
    optLoop cfg reparse pages forced 0 i = [] := rfl

theorem optLoop_out (cfg : Config) (reparse : String → List Node)
    (pages : List String) (forced : List Nat) (fuel i : Nat)
    (h : ¬ i < pages.length) :
    optLoop cfg reparse pages forced (fuel + 1) i = [] := by
  simp [optLoop, h]

theorem optLoop_forced (cfg : Config) (reparse : String → List Node)
    (pages : List String) (forced : List Nat) (fuel i : Nat)
    (hi : i < pages.length) (hf : i ∈ forced) :
    optLoop cfg reparse pages forced (fuel + 1) i =
      pages.getD i "" :: optLoop cfg reparse pages forced fuel (i + 1) := by
  simp [optLoop, hi, hf, List.getD_eq_getElem _ _ hi]

theorem optLoop_blank (cfg : Config) (reparse : String → List Node)
    (pages : List String) (forced : List Nat) (fuel i : Nat)
    (hi : i < pages.length) (hf : i ∉ forced)
    (hb : pyIsBlank (pages.getD i "") = true) :
    optLoop cfg reparse pages forced (fuel + 1) i =
      optLoop cfg reparse pages forced fuel (i + 1) := by
  rw [List.getD_eq_getElem _ _ hi] at hb
  simp [optLoop, hi, hf, hb]

theorem optLoop_merge (cfg : Config) (reparse : String → List Node)
    (pages : List String) (forced : List Nat) (fuel i : Nat)
    (hi : i < pages.length) (hf : i ∉ forced)
    (hb : pyIsBlank (pages.getD i "") = false)
    (hth : 100 * reEstimate cfg reparse (pages.getD i "") <
      mergeThresholdNum cfg * cfg.contentHeight)
    (hlast : i < pages.length - 1)
    (hf2 : (i + 1) ∉ forced)
    (hb2 : pyIsBlank (pages.getD (i + 1) "") = false)
    (hsum : reEstimate cfg reparse (pages.getD i "") +
      reEstimate cfg reparse (pages.getD (i + 1) "") ≤ cfg.contentHeight) :
    optLoop cfg reparse pages forced (fuel + 1) i =
      (pages.getD i "" ++ pages.getD (i + 1) "") ::
        optLoop cfg reparse pages forced fuel (i + 2) := by
  have hi2 : i + 1 < pages.length := by omega
  rw [List.getD_eq_getElem _ _ hi] at hb hth hsum ⊢
  rw [List.getD_eq_getElem _ _ hi2] at hb2 hsum ⊢
  simp [optLoop, hi, hf, hb, hth, hlast, hf2, hb2, hsum, List.getElem?_eq_getElem hi2]

theorem optLoop_nonforced (cfg : Config) (reparse : String → List Node)
    (pages : List String) (forced : List Nat) (fuel i : Nat)
    (hi : i < pages.length) (hf : i ∉ forced)
    (hb : pyIsBlank (pages.getD i "") = false) :
    optLoop cfg reparse pages forced (fuel + 1) i =
        pages.getD i "" :: optLoop cfg reparse pages forced fuel (i + 1) ∨
    (i + 1 < pages.length ∧
      optLoop cfg reparse pages forced (fuel + 1) i =
        (pages.getD i "" ++ pages.getD (i + 1) "") ::
          optLoop cfg reparse pages forced fuel (i + 2)) := by
  by_cases hth : 100 * reEstimate cfg reparse (pages.getD i "") <
      mergeThresholdNum cfg * cfg.contentHeight
  · by_cases hlast : i < pages.length - 1
    · have hi2 : i + 1 < pages.length := by omega
      by_cases hf2 : (i + 1) ∈ forced
      · left
        rw [List.getD_eq_getElem _ _ hi] at hb hth ⊢
        simp [optLoop, hi, hf, hb, hth, hlast, hf2]
      · by_cases hb2 : pyIsBlank (pages.getD (i + 1) "") = true
        · left
          rw [List.getD_eq_getElem _ _ hi] at hb hth ⊢
          rw [List.getD_eq_getElem _ _ hi2] at hb2
          simp [optLoop, hi, hf, hb, hth, hlast, hf2, hb2,
            List.getElem?_eq_getElem hi2]
        · have hb2' : pyIsBlank (pages.getD (i + 1) "") = false := by
            simpa using hb2
          by_cases hsum : reEstimate cfg reparse (pages.getD i "") +
              reEstimate cfg reparse (pages.getD (i + 1) "") ≤ cfg.contentHeight
          · right
            exact ⟨hi2,
              optLoop_merge cfg reparse pages forced fuel i hi hf hb hth hlast hf2 hb2' hsum⟩
          · left
            rw [List.getD_eq_getElem _ _ hi] at hb hth ⊢
            rw [List.getD_eq_getElem _ _ hi2] at hb2' hsum
            rw [List.getD_eq_getElem _ _ hi] at hsum
            simp [optLoop, hi, hf, hb, hth, hlast, hf2, hb2', hsum,
              List.getElem?_eq_getElem hi2]
    · left
      rw [List.getD_eq_getElem _ _ hi] at hb ⊢
      simp [optLoop, hi, hf, hb, hlast]
  · left
    rw [List.getD_eq_getElem _ _ hi] at hb hth ⊢
    simp [optLoop, hi, hf, hb, hth]

end RedBookCards

namespace RedBookCards

theorem drop_getD_cons {α : Type} [Inhabited α] (l : List α) (i : Nat)
    (hi : i < l.length) (d : α) : l.drop i = l.getD i d :: l.drop (i + 1) := by
  rw [List.getD_eq_getElem _ _ hi]
  exact List.drop_eq_getElem_cons hi

/-- If every non-forced page is non-blank, the optimizer loop preserves the
concatenation of the pages from the current index on. -/
theorem optLoop_concat (cfg : Config) (reparse : String → List Node)
    (pages : List String) (forced : List Nat)
    (hnb : ∀ j, j < pages.length → j ∉ forced → pyIsBlank (pages.getD j "") = false) :
    ∀ fuel i, pages.length ≤ fuel + i →
      concatAll (optLoop cfg reparse pages forced fuel i) = concatAll (pages.drop i) := by
  intro fuel
  induction fuel with
  | zero =>
    intro i h
    rw [optLoop_zero, List.drop_eq_nil_of_le (by omega)]
  | succ fuel ih =>
    intro i hle
    by_cases hi : i < pages.length
    · have hdrop := drop_getD_cons pages i hi ""
      by_cases hf : i ∈ forced
      · rw [optLoop_forced cfg reparse pages forced fuel i hi hf, hdrop]
        simp [concatAll, ih (i + 1) (by omega)]
      · have hb := hnb i hi hf
        rcases optLoop_nonforced cfg reparse pages forced fuel i hi hf hb with
          heq | ⟨hi2, heq⟩
        · rw [heq, hdrop]
          simp [concatAll, ih (i + 1) (by omega)]
        · rw [heq, hdrop, drop_getD_cons pages (i + 1) hi2 ""]
          simp [concatAll, ih (i + 2) (by omega), String.append_assoc]
    · rw [optLoop_out cfg reparse pages forced fuel i hi,
        List.drop_eq_nil_of_le (by omega)]
  
/-- Under the same hypothesis the loop's output at an in-range index is
nonempty. -/
theorem optLoop_ne_nil (cfg : Config) (reparse : String → List Node)
    (pages : List String) (forced : List Nat) (fuel i : Nat)
    (hi : i < pages.length)
    (hnb : ∀ j, j < pages.length → j ∉ forced → pyIsBlank (pages.getD j "") = false) :
    optLoop cfg reparse pages forced (fuel + 1) i ≠ [] := by
  by_cases hf : i ∈ forced
  · rw [optLoop_forced cfg reparse pages forced fuel i hi hf]; simp
  · rcases optLoop_nonforced cfg reparse pages forced fuel i hi hf (hnb i hi hf) with
      heq | ⟨_, heq⟩ <;> rw [heq] <;> simp

/-- `optimize_pages` preserves the concatenation of the page strings when
every non-forced page is non-blank (so the blank-drop branch never fires). -/
theorem optimizePages_concat (cfg : Config) (reparse : String → List Node)
    (forced : List Nat) (pages : List String)
    (hnb : ∀ j, j < pages.length → j ∉ forced → pyIsBlank (pages.getD j "") = false) :
    concatAll (optimizePages cfg reparse forced pages) = concatAll pages := by
  unfold optimizePages
  by_cases hlen : pages.length ≤ 1
  · simp [hlen]
  · have h2 : 2 ≤ pages.length := by omega
    have hcat := optLoop_concat cfg reparse pages forced hnb pages.length 0 (by omega)
    have hne : optLoop cfg reparse pages forced pages.length 0 ≠ [] := by
      have : pages.length = (pages.length - 1) + 1 := by omega
      rw [this]
      exact optLoop_ne_nil cfg reparse pages forced (pages.length - 1) 0 (by omega) hnb
    simp only [hlen, if_false]
    rw [if_neg (by simpa using hne)]
    simpa using hcat

/-- The elimination lemma behind the `optimize_pages` fallback: if every
page is non-forced and blank, the loop removes everything. -/
theorem optLoop_all_blank (cfg : Config) (reparse : String → List Node)
    (pages : List String) (forced : List Nat)
    (hall : ∀ j, j < pages.length → j ∉ forced ∧ pyIsBlank (pages.getD j "") = true) :
    ∀ fuel i, optLoop cfg reparse pages forced fuel i = [] := by
  intro fuel
  induction fuel with
  | zero => intro i; rfl
  | succ fuel ih =>
    intro i
    by_cases hi : i < pages.length
    · rw [optLoop_blank cfg reparse pages forced fuel i hi (hall i hi).1 (hall i hi).2]
      exact ih (i + 1)
    · exact optLoop_out cfg reparse pages forced fuel i hi

end RedBookCards

namespace RedBookCards

theorem step_pb_seal (cfg : Config) (s : PagState) (e : PageElement)
    (hpb : e.type = .pagebreak) (hc : s.current ≠ []) :
    step cfg s e =
      { pages := s.pages ++ [s.current]
        forced := s.forced ++ [s.pages.length]
        current := []
        currentHeight := 0
        consecutiveBreaks := s.consecutiveBreaks + 1 } := by
  simp [step, hpb, hc]

theorem step_pb_empty_page (cfg : Config) (s : PagState) (e : PageElement)
    (hpb : e.type = .pagebreak) (hc : s.current = [])
    (hcb : 0 < s.consecutiveBreaks) :
    step cfg s e =
      { pages := s.pages ++ [[]]
        forced := s.forced ++ [s.pages.length]
        current := []
        currentHeight := 0
        consecutiveBreaks := s.consecutiveBreaks + 1 } := by
  simp [step, hpb, hc, hcb]

theorem step_pb_skip (cfg : Config) (s : PagState) (e : PageElement)
    (hpb : e.type = .pagebreak) (hc : s.current = [])
    (hcb : s.consecutiveBreaks = 0) :
    step cfg s e = { s with consecutiveBreaks := s.consecutiveBreaks + 1 } := by
  simp [step, hpb, hc, hcb]

/-- Overflow handling: whenever a non-pagebreak element no longer fits, the
current page (if any) is sealed unforced and the element starts the next
page alone — the paragraph-splitting attempt never succeeds. -/
theorem step_overflow_eq (cfg : Config) (s : PagState) (e : PageElement)
    (hpb : e.type ≠ .pagebreak)
    (hov : s.currentHeight + e.height > cfg.contentHeight) :
    step cfg s e =
      { pages := s.pages ++ (if s.current = [] then [] else [s.current])
        forced := s.forced
        current := [e]
        currentHeight := e.height
        consecutiveBreaks := 0 } := by
  by_cases hh : e.type = EType.heading ∧
      cfg.contentHeight < s.currentHeight + e.height + cfg.headingKeepWith ∧
      ¬ s.current = []
  · have hc : ¬ s.current = [] := hh.2.2
    by_cases hov2 : cfg.contentHeight < e.height
    · simp [step, hpb, hh, hov2, hc, trySplitParagraph]
    · simp [step, hpb, hh, hov2, hc, trySplitParagraph]
  · simp [step, hpb, hh, hov, trySplitParagraph]

/-- Fit handling when no seal is triggered: append to the current page. -/
theorem step_append_eq (cfg : Config) (s : PagState) (e : PageElement)
    (hpb : e.type ≠ .pagebreak)
    (hh : ¬ (e.type = EType.heading ∧
      cfg.contentHeight < s.currentHeight + e.height + cfg.headingKeepWith ∧
      ¬ s.current = []))
    (hov : ¬ s.currentHeight + e.height > cfg.contentHeight) :
    step cfg s e =
      { s with
        current := s.current ++ [e]
        currentHeight := s.currentHeight + e.height
        consecutiveBreaks := 0 } := by
  simp [step, hpb, hh, hov]

/-- Heading look-ahead: a heading that fails the keep-with test when the
current page is non-empty seals the page and starts the next page. -/
theorem step_heading_seal_eq (cfg : Config) (s : PagState) (e : PageElement)
    (he : e.type = .heading) (hc : s.current ≠ [])
    (hkw : s.currentHeight + e.height + cfg.headingKeepWith > cfg.contentHeight) :
    step cfg s e =
      { pages := s.pages ++ [s.current]
        forced := s.forced
        current := [e]
        currentHeight := e.height
        consecutiveBreaks := 0 } := by
  have hpb : e.type ≠ .pagebreak := by rw [he]; decide
  have hh : e.type = EType.heading ∧
      cfg.contentHeight < s.currentHeight + e.height + cfg.headingKeepWith ∧
      ¬ s.current = [] := ⟨he, hkw, hc⟩
  have hh2 : ¬ e.type = EType.paragraph := by rw [he]; decide
  by_cases hov2 : cfg.contentHeight < e.height
  · simp [step, hpb, hh, hov2, hh2, trySplitParagraph]
  · simp [step, hpb, hh, hov2]

end RedBookCards

namespace RedBookCards

/-- Invariant of content-bearing elements: never a pagebreak, and the
`content` string holds at least one non-whitespace character. -/
def ElemOK (e : PageElement) : Prop :=
  e.type ≠ EType.pagebreak ∧ pyIsBlank e.content = false

/-- Invariant of the `paginate` loop state: current-page elements are OK,
non-forced sealed pages are nonempty with OK elements, and forced indexes
are in range. -/
def StateOK (s : PagState) : Prop :=
  (∀ e ∈ s.current, ElemOK e) ∧
  (∀ j, j < s.pages.length → j ∉ s.forced →
    s.pages.getD j [] ≠ [] ∧ ∀ e ∈ s.pages.getD j [], ElemOK e) ∧
  (∀ j ∈ s.forced, j < s.pages.length)

/-- In every branch the loop only ever appends new pages. -/
theorem step_pages_prefix (cfg : Config) (s : PagState) (e : PageElement) :
    ∃ t, (step cfg s e).pages = s.pages ++ t := by
  by_cases hpb : e.type = EType.pagebreak
  · by_cases hc : s.current = []
    · by_cases hcb : s.consecutiveBreaks = 0
      · exact ⟨[], by rw [step_pb_skip cfg s e hpb hc hcb]; simp⟩
      · exact ⟨[[]], by rw [step_pb_empty_page cfg s e hpb hc (by omega)]⟩
    · exact ⟨[s.current], by rw [step_pb_seal cfg s e hpb hc]⟩
  · by_cases hh : e.type = EType.heading ∧
        cfg.contentHeight < s.currentHeight + e.height + cfg.headingKeepWith ∧
        ¬ s.current = []
    · exact ⟨[s.current], by rw [step_heading_seal_eq cfg s e hh.1 hh.2.2 hh.2.1]⟩
    · by_cases hov : s.currentHeight + e.height > cfg.contentHeight
      · exact ⟨_, by rw [step_overflow_eq cfg s e hpb hov]⟩
      · exact ⟨[], by rw [step_append_eq cfg s e hpb hh hov]; simp⟩

theorem foldl_pages_mem (cfg : Config) (elems : List PageElement) :
    ∀ (s : PagState) (p : List PageElement), p ∈ s.pages →
      p ∈ (elems.foldl (step cfg) s).pages := by
  induction elems with
  | nil => intro s p hp; simpa using hp
  | cons e es ih =>
    intro s p hp
    rw [List.foldl_cons]
    apply ih
    obtain ⟨t, ht⟩ := step_pages_prefix cfg s e
    rw [ht]
    exact List.mem_append_left _ hp

/-- A `step` never loses content: the flattened pages plus the accumulator
grow exactly by the element when it is not a pagebreak. -/
theorem step_flatten (cfg : Config) (s : PagState) (e : PageElement) :
    (step cfg s e).pages.flatten ++ (step cfg s e).current =
      s.pages.flatten ++ s.current ++ (if isContentElem e then [e] else []) := by
  by_cases hpb : e.type = EType.pagebreak
  · have hce : isContentElem e = false := by simp [isContentElem, hpb]
    by_cases hc : s.current = []
    · by_cases hcb : s.consecutiveBreaks = 0
      · rw [step_pb_skip cfg s e hpb hc hcb]; simp [hce, hc]
      · rw [step_pb_empty_page cfg s e hpb hc (by omega)]; simp [hce, hc]
    · rw [step_pb_seal cfg s e hpb hc]; simp [hce]
  · have hce : isContentElem e = true := by simp [isContentElem, hpb]
    by_cases hh : e.type = EType.heading ∧
        cfg.contentHeight < s.currentHeight + e.height + cfg.headingKeepWith ∧
        ¬ s.current = []
    · rw [step_heading_seal_eq cfg s e hh.1 hh.2.2 hh.2.1]; simp [hce]
    · by_cases hov : s.currentHeight + e.height > cfg.contentHeight
      · rw [step_overflow_eq cfg s e hpb hov]
        by_cases hc : s.current = [] <;> simp [hce, hc]
      · rw [step_append_eq cfg s e hpb hh hov]; simp [hce]

theorem foldl_flatten (cfg : Config) (elems : List PageElement) :
    ∀ s : PagState,
      (elems.foldl (step cfg) s).pages.flatten ++ (elems.foldl (step cfg) s).current =
        s.pages.flatten ++ s.current ++ elems.filter isContentElem := by
  induction elems with
  | nil => intro s; simp
  | cons e es ih =>
    intro s
    rw [List.foldl_cons, ih (step cfg s e), step_flatten]
    by_cases hce : isContentElem e <;> simp [hce, List.filter_cons]

end RedBookCards

namespace RedBookCards

theorem getD_concat_lt {α : Type} (l : List α) (x : α) (j : Nat) (d : α)
    (h : j < l.length) : (l ++ [x]).getD j d = l.getD j d :=
  List.getD_append _ _ _ _ h

theorem getD_concat_self {α : Type} (l : List α) (x : α) (d : α) :
    (l ++ [x]).getD l.length d = x := by
  rw [List.getD_eq_getElem _ _ (by simp)]
  exact List.getElem_concat_length l x l.length rfl (by simp)

/-- An unforced seal of a nonempty OK accumulator preserves the state
invariant. -/
theorem stateOK_seal_unforced (s : PagState) (pg : List PageElement)
    (hs : StateOK s) (hpg : pg ≠ []) (hpgok : ∀ e ∈ pg, ElemOK e)
    (cur : List PageElement) (hcur : ∀ e ∈ cur, ElemOK e)
    (ch : Int) (cb : Nat) :
    StateOK ⟨s.pages ++ [pg], s.forced, cur, ch, cb⟩ := by
  obtain ⟨-, h2, h3⟩ := hs
  refine ⟨hcur, ?_, ?_⟩
  · intro j hj hjf
    dsimp only at hj hjf ⊢
    simp only [List.length_append, List.length_cons, List.length_nil] at hj
    by_cases hlt : j < s.pages.length
    · rw [getD_concat_lt _ _ _ _ hlt]
      exact h2 j hlt hjf
    · have hj' : j = s.pages.length := by omega
      subst hj'
      rw [getD_concat_self]
      exact ⟨hpg, hpgok⟩
  · intro j hj
    dsimp only at hj ⊢
    have := h3 j hj
    simp only [List.length_append, List.length_cons, List.length_nil]
    omega

/-- A forced seal (pagebreak) preserves the state invariant. -/
theorem stateOK_seal_forced (s : PagState) (pg : List PageElement)
    (hs : StateOK s) (cur : List PageElement) (hcur : ∀ e ∈ cur, ElemOK e)
    (ch : Int) (cb : Nat) :
    StateOK ⟨s.pages ++ [pg], s.forced ++ [s.pages.length], cur, ch, cb⟩ := by
  obtain ⟨-, h2, h3⟩ := hs
  refine ⟨hcur, ?_, ?_⟩
  · intro j hj hjf
    dsimp only at hj hjf ⊢
    simp only [List.mem_append, List.mem_singleton, not_or] at hjf
    simp only [List.length_append, List.length_cons, List.length_nil] at hj
    have hlt : j < s.pages.length := by
      have := hjf.2; omega
    rw [getD_concat_lt _ _ _ _ hlt]
    exact h2 j hlt hjf.1
  · intro j hj
    dsimp only at hj ⊢
    simp only [List.mem_append, List.mem_singleton] at hj
    simp only [List.length_append, List.length_cons, List.length_nil]
    rcases hj with hj | hj
    · have := h3 j hj; omega
    · omega

theorem step_ok (cfg : Config) (s : PagState) (e : PageElement)
    (he : e.type = EType.pagebreak ∨ ElemOK e) (hs : StateOK s) :
    StateOK (step cfg s e) := by
  by_cases hpb : e.type = EType.pagebreak
  · by_cases hc : s.current = []
    · by_cases hcb : s.consecutiveBreaks = 0
      · rw [step_pb_skip cfg s e hpb hc hcb]
        exact ⟨hs.1, hs.2.1, hs.2.2⟩
      · rw [step_pb_empty_page cfg s e hpb hc (by omega)]
        exact stateOK_seal_forced s [] hs [] (by simp) 0 _
    · rw [step_pb_seal cfg s e hpb hc]
      exact stateOK_seal_forced s s.current hs [] (by simp) 0 _
  · have hok : ElemOK e := he.resolve_left hpb
    by_cases hh : e.type = EType.heading ∧
        cfg.contentHeight < s.currentHeight + e.height + cfg.headingKeepWith ∧
        ¬ s.current = []
    · rw [step_heading_seal_eq cfg s e hh.1 hh.2.2 hh.2.1]
      exact stateOK_seal_unforced s s.current hs hh.2.2 hs.1 [e]
        (by intro f hf; rw [List.mem_singleton] at hf; subst hf; exact hok) _ _
    · by_cases hov : s.currentHeight + e.height > cfg.contentHeight
      · rw [step_overflow_eq cfg s e hpb hov]
        by_cases hc : s.current = []
        · simp only [hc, if_pos, List.append_nil]
          refine ⟨?_, hs.2.1, hs.2.2⟩
          intro f hf; rw [List.mem_singleton] at hf; subst hf; exact hok
        · simp only [hc, if_neg, if_false]
          exact stateOK_seal_unforced s s.current hs hc hs.1 [e]
            (by intro f hf; rw [List.mem_singleton] at hf; subst hf; exact hok) _ _
      · rw [step_append_eq cfg s e hpb hh hov]
        refine ⟨?_, hs.2.1, hs.2.2⟩
        intro f hf
        rcases List.mem_append.mp hf with hf | hf
        · exact hs.1 f hf
        · rw [List.mem_singleton] at hf; subst hf; exact hok

theorem foldl_ok (cfg : Config) (elems : List PageElement)
    (helems : ∀ e ∈ elems, e.type = EType.pagebreak ∨ ElemOK e) :
    ∀ s : PagState, StateOK s → StateOK (elems.foldl (step cfg) s) := by
  induction elems with
  | nil => intro s hs; simpa using hs
  | cons e es ih =>
    intro s hs
    rw [List.foldl_cons]
    exact ih (fun f hf => helems f (List.mem_cons_of_mem _ hf)) _
      (step_ok cfg s e (helems e (List.mem_cons_self e es)) hs)

end RedBookCards

namespace RedBookCards

theorem pyIsBlank_append_false_left (a b : String) (h : pyIsBlank a = false) :
    pyIsBlank (a ++ b) = false := by
  rw [pyIsBlank_append, h, Bool.false_and]

theorem pyIsBlank_append_false_right (a b : String) (h : pyIsBlank b = false) :
    pyIsBlank (a ++ b) = false := by
  rw [pyIsBlank_append, h, Bool.and_false]

theorem pyIsBlank_lt (r : String) : pyIsBlank ("<" ++ r) = false := by
  apply pyIsBlank_append_false_left
  decide

theorem pyStrip_eq_empty_of_blank (s : String) (h : pyIsBlank s = true) :
    pyStrip s = "" := by
  have hdw : s.data.dropWhile Char.isWhitespace = [] := by
    rw [List.dropWhile_eq_nil_iff]
    intro x hx
    exact List.all_eq_true.mp h x hx
  simp [pyStrip, hdw]

theorem pyIsBlank_false_of_strip (s : String) (h : pyStrip s ≠ "") :
    pyIsBlank s = false := by
  by_cases hb : pyIsBlank s = true
  · exact absurd (pyStrip_eq_empty_of_blank s hb) h
  · simpa using hb

theorem strLower_document : strLower "[document]" = "[document]" := by decide

/-- A tag other than the document node serializes with a leading
angle bracket, hence non-blank. -/
theorem render_tag_nonblank (name : String) (attrs : List (String × String))
    (cs : NodeList) (h : name ≠ "[document]") :
    pyIsBlank (renderNode (.tag name attrs cs)) = false := by
  rw [renderNode]
  rw [if_neg h]
  by_cases hv : voidTags.contains name
  · rw [if_pos hv]
    apply pyIsBlank_append_false_left
    apply pyIsBlank_append_false_left
    apply pyIsBlank_append_false_left
    decide
  · rw [if_neg hv]
    apply pyIsBlank_append_false_left
    apply pyIsBlank_append_false_left
    apply pyIsBlank_append_false_left
    apply pyIsBlank_append_false_left
    apply pyIsBlank_append_false_left
    apply pyIsBlank_append_false_left
    apply pyIsBlank_append_false_left
    decide

theorem string_append_ne_empty_cases (a b : String) (h : a ++ b ≠ "") :
    a ≠ "" ∨ b ≠ "" := by
  by_cases ha : a = ""
  · right
    intro hb
    exact h (by rw [ha, hb]; rfl)
  · exact Or.inl ha

mutual
/-- A node with non-empty stripped text serializes non-blank. -/
theorem render_nonblank_of_text : ∀ n : Node, getTextStrip n ≠ "" →
    pyIsBlank (renderNode n) = false
  | .text s, h => pyIsBlank_false_of_strip s h
  | .comment _, h => absurd rfl h
  | .tag name attrs cs, h => by
    by_cases hd : name = "[document]"
    · subst hd
      rw [renderNode, if_pos rfl]
      rw [getTextStrip] at h
      exact renderList_nonblank_of_text cs h
    · exact render_tag_nonblank name attrs cs hd
/-- List version of `render_nonblank_of_text`. -/
theorem renderList_nonblank_of_text : ∀ ns : NodeList, getTextStripList ns ≠ "" →
    pyIsBlank (renderNodeList ns) = false
  | .nil, h => absurd rfl h
  | .cons n ns, h => by
    rw [getTextStripList] at h
    rw [renderNodeList]
    rcases string_append_ne_empty_cases _ _ h with h1 | h1
    · exact pyIsBlank_append_false_left _ _ (render_nonblank_of_text n h1)
    · exact pyIsBlank_append_false_right _ _ (renderList_nonblank_of_text ns h1)
end

mutual
/-- A node containing a tag named `t` (with `t` not the document
pseudo-name) serializes non-blank. -/
theorem render_nonblank_of_tag : ∀ (t : String) (n : Node), t ≠ "[document]" →
    0 < countTagIn t n → pyIsBlank (renderNode n) = false
  | t, .text _, _, hc => absurd hc (by rw [countTagIn]; omega)
  | t, .comment _, _, hc => absurd hc (by rw [countTagIn]; omega)
  | t, .tag name attrs cs, ht, hc => by
    by_cases hd : name = "[document]"
    · subst hd
      rw [renderNode, if_pos rfl]
      rw [countTagIn, if_neg (by exact fun hh => ht hh.symm)] at hc
      exact renderList_nonblank_of_tag t cs ht (by omega)
    · exact render_tag_nonblank name attrs cs hd
/-- List version of `render_nonblank_of_tag`. -/
theorem renderList_nonblank_of_tag : ∀ (t : String) (ns : NodeList),
    t ≠ "[document]" → 0 < countTagInList t ns →
    pyIsBlank (renderNodeList ns) = false
  | t, .nil, _, hc => absurd hc (by rw [countTagInList]; omega)
  | t, .cons n ns, ht, hc => by
    rw [countTagInList] at hc
    rw [renderNodeList]
    by_cases h1 : 0 < countTagIn t n
    · exact pyIsBlank_append_false_left _ _ (render_nonblank_of_tag t n ht h1)
    · exact pyIsBlank_append_false_right _ _
        (renderList_nonblank_of_tag t ns ht (by omega))
end

end RedBookCards

namespace RedBookCards

theorem ne_document_of_strLower (name x : String) (h : strLower name = x)
    (hx : x ≠ "[document]") : name ≠ "[document]" := by
  intro hd
  subst hd
  rw [strLower_document] at h
  exact hx h.symm

theorem ne_document_of_container (name : String)
    (h : containerTags.contains (strLower name) = true) : name ≠ "[document]" := by
  intro hd
  subst hd
  rw [strLower_document] at h
  exact absurd h (by decide)

theorem ne_document_of_headingLevel (name : String) (lvl : Int)
    (h : headingLevel (strLower name) = some lvl) : name ≠ "[document]" := by
  intro hd
  subst hd
  rw [strLower_document] at h
  simp [headingLevel] at h

theorem pyIsBlank_pWrap (t : String) : pyIsBlank ("<p>" ++ t ++ "</p>") = false := by
  apply pyIsBlank_append_false_left
  apply pyIsBlank_append_false_left
  decide

theorem pSubElements_ok (cfg : Config) (kids : List Node) :
    ∀ e ∈ pSubElements cfg kids, e.type = EType.pagebreak ∨ ElemOK e := by
  have main : ∀ (l : List Node) (acc : List PageElement),
      (∀ e ∈ acc, e.type = EType.pagebreak ∨ ElemOK e) →
      ∀ e ∈ l.foldl (fun acc child =>
        if isPagebreakMarker child then
          let textBefore := renderNodes (kids.take (indexOfNode kids child))
          let acc :=
            if (pyStrip textBefore).isEmpty then acc
            else acc ++
              [{ type := .paragraph,
                 content := "<p>" ++ textBefore ++ "</p>",
                 text := textBefore,
                 height := calculateParagraphHeight cfg textBefore,
                 canBreak := true }]
          acc ++ [pagebreakElem]
        else acc) acc, e.type = EType.pagebreak ∨ ElemOK e := by
    intro l
    induction l with
    | nil => intro acc hacc; simpa using hacc
    | cons c cs ih =>
      intro acc hacc
      rw [List.foldl_cons]
      apply ih
      intro e he
      by_cases hm : isPagebreakMarker c
      · simp only [hm, if_true, if_pos] at he
        rcases List.mem_append.mp he with he | he
        · by_cases hblank : (pyStrip (renderNodes (kids.take (indexOfNode kids c)))).isEmpty
          · rw [if_pos hblank] at he
            exact hacc e he
          · rw [if_neg hblank] at he
            rcases List.mem_append.mp he with he | he
            · exact hacc e he
            · rw [List.mem_singleton] at he
              subst he
              right
              exact ⟨by simp, pyIsBlank_pWrap _⟩
        · rw [List.mem_singleton] at he
          subst he
          left
          rfl
      · simp only [hm, if_false, if_neg] at he
        exact hacc e he
  rw [pSubElements]
  exact main kids [] (by simp)

mutual
/-- Every element emitted by the classifier is either a pagebreak marker or
carries non-blank HTML content. -/
theorem flattenParse_ok : ∀ (cfg : Config) (n : Node),
    ∀ e ∈ flattenParse cfg n, e.type = EType.pagebreak ∨ ElemOK e
  | cfg, .text s => by
    rw [flattenParse]
    by_cases ht : (pyStrip s).isEmpty
    · simp [ht]
    · rw [if_neg ht]
      intro e he
      rw [List.mem_singleton] at he
      subst he
      right
      exact ⟨by simp, pyIsBlank_pWrap _⟩
  | _cfg, .comment s => by
    rw [flattenParse]
    intro e he
    exact absurd he (List.not_mem_nil e)
  | cfg, .tag name attrs children => by
    rw [flattenParse]
    by_cases hmark : isPagebreakMarker (.tag name attrs children)
    · rw [if_pos hmark]
      intro e he
      rw [List.mem_singleton] at he
      subst he
      left
      rfl
    · rw [if_neg hmark]
      dsimp only
      by_cases himg : strLower name = "img"
      · rw [if_pos himg]
        intro e he
        rw [List.mem_singleton] at he
        subst he
        right
        exact ⟨by simp,
          render_tag_nonblank name attrs children
            (ne_document_of_strLower name "img" himg (by decide))⟩
      · rw [if_neg himg]
        rcases hhl : headingLevel (strLower name) with _ | lvl
        · dsimp only
          by_cases hp : strLower name = "p"
          · rw [if_pos hp]
            by_cases himgs : countTagDesc "img" (.tag name attrs children) > 0
            · rw [if_pos himgs]
              intro e he
              rw [List.mem_singleton] at he
              subst he
              right
              exact ⟨by simp,
                render_tag_nonblank name attrs children
                  (ne_document_of_strLower name "p" hp (by decide))⟩
            · rw [if_neg himgs]
              by_cases hany : children.toList.any isPagebreakMarker
              · rw [if_pos hany]
                exact pSubElements_ok cfg children.toList
              · rw [if_neg hany]
                by_cases htxt : (getTextStrip (.tag name attrs children)).isEmpty
                · simp [htxt]
                · rw [if_neg htxt]
                  intro e he
                  rw [List.mem_singleton] at he
                  subst he
                  right
                  exact ⟨by simp,
                    render_tag_nonblank name attrs children
                      (ne_document_of_strLower name "p" hp (by decide))⟩
          · rw [if_neg hp]
            by_cases hul : strLower name = "ul" ∨ strLower name = "ol"
            · rw [if_pos (by simpa using hul)]
              intro e he
              rw [List.mem_singleton] at he
              subst he
              right
              refine ⟨by simp, ?_⟩
              rcases hul with hul | hul <;>
                exact render_tag_nonblank name attrs children
                  (ne_document_of_strLower name _ hul (by decide))
            · rw [if_neg (by simpa using hul)]
              by_cases hpre : strLower name = "pre"
              · rw [if_pos hpre]
                intro e he
                rw [List.mem_singleton] at he
                subst he
                right
                exact ⟨by simp,
                  render_tag_nonblank name attrs children
                    (ne_document_of_strLower name "pre" hpre (by decide))⟩
              · rw [if_neg hpre]
                by_cases hbq : strLower name = "blockquote"
                · rw [if_pos hbq]
                  intro e he
                  rw [List.mem_singleton] at he
                  subst he
                  right
                  exact ⟨by simp,
                    render_tag_nonblank name attrs children
                      (ne_document_of_strLower name "blockquote" hbq (by decide))⟩
                · rw [if_neg hbq]
                  by_cases htb : strLower name = "table"
                  · rw [if_pos htb]
                    intro e he
                    rw [List.mem_singleton] at he
                    subst he
                    right
                    exact ⟨by simp,
                      render_tag_nonblank name attrs children
                        (ne_document_of_strLower name "table" htb (by decide))⟩
                  · rw [if_neg htb]
                    by_cases hhr : strLower name = "hr"
                    · rw [if_pos hhr]
                      intro e he
                      rw [List.mem_singleton] at he
                      subst he
                      right
                      exact ⟨by simp,
                        render_tag_nonblank name attrs children
                          (ne_document_of_strLower name "hr" hhr (by decide))⟩
                    · rw [if_neg hhr]
                      by_cases hct : containerTags.contains (strLower name) = true
                      · rw [if_pos hct]
                        by_cases hdir : children.toList.countP isImgTag > 0
                        · rw [if_pos hdir]
                          intro e he
                          rw [List.mem_singleton] at he
                          subst he
                          right
                          exact ⟨by simp,
                            render_tag_nonblank name attrs children
                              (ne_document_of_container name hct)⟩
                        · rw [if_neg hdir]
                          exact flattenParseList_ok cfg children
                      · rw [if_neg hct]
                        by_cases himgs : countTagDesc "img" (.tag name attrs children) > 0
                        · rw [if_pos himgs]
                          intro e he
                          rw [List.mem_singleton] at he
                          subst he
                          right
                          refine ⟨by simp, ?_⟩
                          apply render_nonblank_of_tag "img" _ (by decide)
                          rw [countTagIn]
                          rw [countTagDesc] at himgs
                          omega
                        · rw [if_neg himgs]
                          by_cases htxt : (getTextStrip (.tag name attrs children)).isEmpty
                          · rw [if_neg (by simpa using htxt)]
                            exact flattenParseList_ok cfg children
                          · rw [if_pos (by simpa using htxt)]
                            by_cases hkids : (flattenParseList cfg children).isEmpty
                            · rw [if_pos hkids]
                              intro e he
                              rw [List.mem_singleton] at he
                              subst he
                              right
                              refine ⟨by simp, ?_⟩
                              apply render_nonblank_of_text
                              simpa [String.isEmpty_iff] using htxt
                            · rw [if_neg hkids]
                              exact flattenParseList_ok cfg children
        · dsimp only
          intro e he
          rw [List.mem_singleton] at he
          subst he
          right
          exact ⟨by simp,
            render_tag_nonblank name attrs children
              (ne_document_of_headingLevel name lvl hhl)⟩
/-- List version of `flattenParse_ok`. -/
theorem flattenParseList_ok : ∀ (cfg : Config) (ns : NodeList),
    ∀ e ∈ flattenParseList cfg ns, e.type = EType.pagebreak ∨ ElemOK e
  | _cfg, .nil => by
    rw [flattenParseList]
    intro e he
    exact absurd he (List.not_mem_nil e)
  | cfg, .cons n ns => by
    rw [flattenParseList]
    intro e he
    rcases List.mem_append.mp he with he | he
    · exact flattenParse_ok cfg n e he
    · exact flattenParseList_ok cfg ns e he
end

/-- The elements produced by `parse_html_to_elements` satisfy the content
invariant. -/
theorem parseHtmlToElements_ok (cfg : Config) (doc : List Node) :
    ∀ e ∈ parseHtmlToElements cfg doc, e.type = EType.pagebreak ∨ ElemOK e :=
  flattenParse_ok cfg _

end RedBookCards

namespace RedBookCards

theorem initState_ok : StateOK initState := by
  refine ⟨?_, ?_, ?_⟩ <;> intro x hx <;> simp [initState] at hx

theorem runPaginate_ok (cfg : Config) (elems : List PageElement)
    (h : ∀ e ∈ elems, e.type = EType.pagebreak ∨ ElemOK e) :
    StateOK (runPaginate cfg elems) :=
  foldl_ok cfg elems h initState initState_ok

/-- The blocks of all sealed pages, in order, are exactly the non-pagebreak
input elements. -/
theorem paginateBlocks_flatten (cfg : Config) (elems : List PageElement) :
    (paginateBlocks cfg elems).flatten = elems.filter isContentElem := by
  have h := foldl_flatten cfg elems initState
  unfold paginateBlocks runPaginate
  by_cases hc : (elems.foldl (step cfg) initState).current = []
  · rw [if_pos (by simpa using hc)]
    rw [hc, List.append_nil] at h
    simpa [initState] using h
  · rw [if_neg (by simpa using hc)]
    rw [List.flatten_append]
    simpa [initState] using h

theorem elementsToHtml_nonblank (pg : List PageElement) (hne : pg ≠ [])
    (hok : ∀ e ∈ pg, ElemOK e) : pyIsBlank (elementsToHtml pg) = false := by
  have hf : pg.filter isContentElem = pg :=
    List.filter_eq_self.mpr (fun e he => by simp [isContentElem, (hok e he).1])
  rw [elementsToHtml, hf]
  cases pg with
  | nil => exact absurd rfl hne
  | cons e es =>
    by_cases hb : pyIsBlank (joinNl ((e :: es).map (fun x => x.content))) = true
    · rw [List.map_cons] at hb
      have := pyIsBlank_joinNl_cons _ _ hb
      rw [(hok e (List.mem_cons_self e es)).2] at this
      exact absurd this (by decide)
    · simpa using hb

/-- Every non-forced page string produced by `paginate`'s run is
non-blank. -/
theorem paginate_pages_nonblank (cfg : Config) (elems : List PageElement)
    (h : ∀ e ∈ elems, e.type = EType.pagebreak ∨ ElemOK e) :
    ∀ j, j < (paginateBlocks cfg elems).length →
      j ∉ (runPaginate cfg elems).forced →
      pyIsBlank (((paginateBlocks cfg elems).map elementsToHtml).getD j "") = false := by
  intro j hj hjf
  obtain ⟨h1, h2, h3⟩ := runPaginate_ok cfg elems h
  have hjm : j < ((paginateBlocks cfg elems).map elementsToHtml).length := by
    simpa using hj
  have hstep : ((paginateBlocks cfg elems).map elementsToHtml).getD j "" =
      elementsToHtml ((paginateBlocks cfg elems).getD j []) := by
    rw [List.getD_eq_getElem _ _ hjm, List.getElem_map, List.getD_eq_getElem _ _ hj]
  rw [hstep]
  have hpage : (paginateBlocks cfg elems).getD j [] ≠ [] ∧
      ∀ e ∈ (paginateBlocks cfg elems).getD j [], ElemOK e := by
    by_cases hc : (runPaginate cfg elems).current = []
    · have hbp : paginateBlocks cfg elems = (runPaginate cfg elems).pages := by
        unfold paginateBlocks
        rw [if_pos (by simpa using hc)]
      rw [hbp] at hj ⊢
      exact h2 j hj hjf
    · have hbp : paginateBlocks cfg elems =
          (runPaginate cfg elems).pages ++ [(runPaginate cfg elems).current] := by
        unfold paginateBlocks
        rw [if_neg (by simpa using hc)]
      rw [hbp] at hj ⊢
      simp only [List.length_append, List.length_cons, List.length_nil] at hj
      by_cases hlt : j < (runPaginate cfg elems).pages.length
      · rw [getD_concat_lt _ _ _ _ hlt]
        exact h2 j hlt hjf
      · have hje : j = (runPaginate cfg elems).pages.length := by omega
        subst hje
        rw [getD_concat_self]
        exact ⟨hc, h1⟩
  exact elementsToHtml_nonblank _ hpage.1 hpage.2

/-- Helper: the concatenated content of the non-pagebreak elements of a
page. -/
def pageContent (pg : List PageElement) : String :=
  concatAll ((pg.filter isContentElem).map (fun e => e.content))

theorem stripNl_elementsToHtml (pg : List PageElement) :
    stripNl (elementsToHtml pg) = stripNl (pageContent pg) :=
  stripNl_joinNl _

theorem pageContent_append (a b : List PageElement) :
    pageContent (a ++ b) = pageContent a ++ pageContent b := by
  unfold pageContent
  rw [List.filter_append, List.map_append, concatAll_append]

theorem pageContent_flatten (bp : List (List PageElement)) :
    concatAll (bp.map pageContent) = pageContent bp.flatten := by
  induction bp with
  | nil => rfl
  | cons pg rest ih =>
    rw [List.map_cons, List.flatten_cons, pageContent_append, concatAll, ih]

theorem stripNl_concat_pages (bp : List (List PageElement)) :
    stripNl (concatAll (bp.map elementsToHtml)) = stripNl (pageContent bp.flatten) := by
  induction bp with
  | nil => rfl
  | cons pg rest ih =>
    rw [List.map_cons, concatAll, stripNl_append, stripNl_elementsToHtml,
      List.flatten_cons, pageContent_append, stripNl_append, ih]

theorem filter_isContentElem_idem (l : List PageElement) :
    (l.filter isContentElem).filter isContentElem = l.filter isContentElem :=
  List.filter_eq_self.mpr (fun _e he => (List.mem_filter.mp he).2)

end RedBookCards

namespace RedBookCards

theorem paginate_eq_of_content (cfg : Config) (doc : List Node)
    (hne : parseHtmlToElements cfg doc ≠ [])
    (hbp : paginateBlocks cfg (parseHtmlToElements cfg doc) ≠ []) :
    paginate cfg doc =
      ((paginateBlocks cfg (parseHtmlToElements cfg doc)).map elementsToHtml,
        (runPaginate cfg (parseHtmlToElements cfg doc)).forced) := by
  unfold paginate
  rw [if_neg (by simpa using hne), if_neg (by simpa using hbp)]

/-- The concatenated HTML of the non-pagebreak blocks the classifier
produces for a document. -/
def nonPagebreakContents (cfg : Config) (doc : List Node) : String :=
  concatAll (((parseHtmlToElements cfg doc).filter isContentElem).map
    (fun e => e.content))

/-- Core content-preservation result: when classification yields at least
one non-pagebreak block, the full pipeline reproduces exactly the blocks'
HTML (newline separators and page boundaries disregarded). -/
theorem pipeline_content_preservation (cfg : Config)
    (reparse : String → List Node) (doc : List Node)
    (hcontent : ∃ e ∈ parseHtmlToElements cfg doc, isContentElem e = true) :
    stripNl (concatAll (pipelineRun cfg reparse doc)) =
    stripNl (nonPagebreakContents cfg doc) := by
  obtain ⟨e0, he0, hce0⟩ := hcontent
  have hfilter_ne : (parseHtmlToElements cfg doc).filter isContentElem ≠ [] := by
    intro hnil
    have hmem : e0 ∈ (parseHtmlToElements cfg doc).filter isContentElem :=
      List.mem_filter.mpr ⟨he0, hce0⟩
    rw [hnil] at hmem
    exact absurd hmem (List.not_mem_nil e0)
  have hne : parseHtmlToElements cfg doc ≠ [] := by
    intro h
    apply hfilter_ne
    rw [h]
    rfl
  have hbp_flat := paginateBlocks_flatten cfg (parseHtmlToElements cfg doc)
  have hbp_ne : paginateBlocks cfg (parseHtmlToElements cfg doc) ≠ [] := by
    intro h
    rw [h] at hbp_flat
    exact hfilter_ne hbp_flat.symm
  unfold pipelineRun
  rw [paginate_eq_of_content cfg doc hne hbp_ne]
  have hok := parseHtmlToElements_ok cfg doc
  have hnb := paginate_pages_nonblank cfg (parseHtmlToElements cfg doc) hok
  have hconcat := optimizePages_concat cfg reparse
    (runPaginate cfg (parseHtmlToElements cfg doc)).forced
    ((paginateBlocks cfg (parseHtmlToElements cfg doc)).map elementsToHtml)
    (fun j hj hjf => hnb j (by simpa using hj) hjf)
  dsimp only
  rw [hconcat, stripNl_concat_pages, hbp_flat]
  unfold nonPagebreakContents pageContent
  rw [filter_isContentElem_idem]

end RedBookCards

namespace RedBookCards

mutual
/-- All tag names in the tree are already lower-case, as `html.parser`
guarantees for every tree it produces. -/
def namesLower : Node → Bool
  | .text _ => true
  | .comment _ => true
  | .tag n _ cs => (strLower n == n) && namesLowerList cs
/-- See `namesLower`. -/
def namesLowerList : NodeList → Bool
  | .nil => true
  | .cons n ns => namesLower n && namesLowerList ns
end

theorem calculateTextHeight_nonneg (cfg : Config) (t : String) :
    0 ≤ calculateTextHeight cfg t := by
  rw [calculateTextHeight]
  split
  · exact le_refl 0
  · dsimp only
    refine add_nonneg (by decide) (mul_nonneg ?_ (by decide))
    exact le_trans zero_le_one (le_max_left _ _)

theorem calculateParagraphHeight_nonneg (cfg : Config) (t : String) :
    0 ≤ calculateParagraphHeight cfg t := by
  rw [calculateParagraphHeight]
  split
  · decide
  · dsimp only
    refine add_nonneg (add_nonneg (by decide) (mul_nonneg ?_ (by decide))) (by decide)
    exact le_trans zero_le_one (le_max_left _ _)

theorem calculateBlockquoteHeight_nonneg (cfg : Config) (t : String) :
    0 ≤ calculateBlockquoteHeight cfg t := by
  rw [calculateBlockquoteHeight]
  split
  · decide
  · dsimp only
    refine add_nonneg (add_nonneg (by decide) (mul_nonneg ?_ (by decide))) (by decide)
    exact le_trans zero_le_one (le_max_left _ _)

theorem headingHeights_nonneg (t : String) (lvl : Int)
    (h : headingLevel t = some lvl) :
    0 ≤ elementHeights t + elementHeights "margin_bottom" := by
  unfold headingLevel at h
  split at h <;> first
    | decide
    | exact absurd h (by simp)

theorem pSubElements_nonneg (cfg : Config) (kids : List Node) :
    ∀ e ∈ pSubElements cfg kids, 0 ≤ e.height := by
  have main : ∀ (l : List Node) (acc : List PageElement),
      (∀ e ∈ acc, 0 ≤ e.height) →
      ∀ e ∈ l.foldl (fun acc child =>
        if isPagebreakMarker child then
          let textBefore := renderNodes (kids.take (indexOfNode kids child))
          let acc :=
            if (pyStrip textBefore).isEmpty then acc
            else acc ++
              [{ type := .paragraph,
                 content := "<p>" ++ textBefore ++ "</p>",
                 text := textBefore,
                 height := calculateParagraphHeight cfg textBefore,
                 canBreak := true }]
          acc ++ [pagebreakElem]
        else acc) acc, 0 ≤ e.height := by
    intro l
    induction l with
    | nil => intro acc hacc; simpa using hacc
    | cons c cs ih =>
      intro acc hacc
      rw [List.foldl_cons]
      apply ih
      intro e he
      by_cases hm : isPagebreakMarker c
      · simp only [hm, if_true, if_pos] at he
        rcases List.mem_append.mp he with he | he
        · by_cases hblank : (pyStrip (renderNodes (kids.take (indexOfNode kids c)))).isEmpty
          · rw [if_pos hblank] at he
            exact hacc e he
          · rw [if_neg hblank] at he
            rcases List.mem_append.mp he with he | he
            · exact hacc e he
            · rw [List.mem_singleton] at he
              subst he
              exact calculateParagraphHeight_nonneg cfg _
        · rw [List.mem_singleton] at he
          subst he
          decide
      · simp only [hm, if_false, if_neg] at he
        exact hacc e he
  rw [pSubElements]
  exact main kids [] (by simp)

theorem not_img_of_no_count (m : Node) (hl : namesLower m = true)
    (hc : countTagIn "img" m = 0) : isImgTag m = false := by
  cases m with
  | text s => rfl
  | comment s => rfl
  | tag n attrs cs =>
    rw [countTagIn] at hc
    rw [namesLower, Bool.and_eq_true, beq_iff_eq] at hl
    have hne : n ≠ "img" := by
      intro h
      rw [if_pos h] at hc
      omega
    rw [isImgTag, hl.1]
    simpa using hne

theorem countTagInList_toList : ∀ (t : String) (ns : NodeList) (m : Node),
    m ∈ ns.toList → countTagIn t m ≤ countTagInList t ns
  | t, .nil, m, hm => by simp [NodeList.toList] at hm
  | t, .cons n rest, m, hm => by
    rw [NodeList.toList, List.mem_cons] at hm
    rw [countTagInList]
    rcases hm with hm | hm
    · subst hm; omega
    · have := countTagInList_toList t rest m hm; omega

theorem namesLowerList_toList : ∀ (ns : NodeList), namesLowerList ns = true →
    ∀ m ∈ ns.toList, namesLower m = true
  | .nil, _, m, hm => by simp [NodeList.toList] at hm
  | .cons n rest, h, m, hm => by
    rw [namesLowerList, Bool.and_eq_true] at h
    rw [NodeList.toList, List.mem_cons] at hm
    rcases hm with hm | hm
    · subst hm; exact h.1
    · exact namesLowerList_toList rest h.2 m hm

end RedBookCards

namespace RedBookCards

theorem nat_cast_mul_nonneg (n : Nat) (c : Int) (hc : 0 ≤ c) : 0 ≤ (n : Int) * c :=
  mul_nonneg (Int.ofNat_nonneg n) hc

mutual
/-- On parser-normalized trees (lower-case tag names) every classified
element has a nonnegative estimated height: the only negative-height
branch, the bare-`img` branch with a negative declared height, is
unreachable from the document node. -/
theorem flattenParse_nonneg : ∀ (cfg : Config) (n : Node),
    namesLower n = true → isImgTag n = false →
    ∀ e ∈ flattenParse cfg n, 0 ≤ e.height
  | cfg, .text s, _, _ => by
    rw [flattenParse]
    by_cases ht : (pyStrip s).isEmpty
    · simp [ht]
    · rw [if_neg ht]
      intro e he
      rw [List.mem_singleton] at he
      subst he
      exact calculateTextHeight_nonneg cfg _
  | _cfg, .comment s, _, _ => by
    rw [flattenParse]
    intro e he
    exact absurd he (List.not_mem_nil e)
  | cfg, .tag name attrs children, hlow, himgtag => by
    have hlow' : namesLowerList children = true := by
      rw [namesLower, Bool.and_eq_true] at hlow
      exact hlow.2
    have hlname : strLower name = name := by
      rw [namesLower, Bool.and_eq_true, beq_iff_eq] at hlow
      exact hlow.1
    rw [flattenParse]
    by_cases hmark : isPagebreakMarker (.tag name attrs children)
    · rw [if_pos hmark]
      intro e he
      rw [List.mem_singleton] at he
      subst he
      decide
    · rw [if_neg hmark]
      dsimp only
      have himg : ¬ strLower name = "img" := by
        rw [isImgTag] at himgtag
        simpa using himgtag
      rw [if_neg himg]
      rcases hhl : headingLevel (strLower name) with _ | lvl
      · dsimp only
        by_cases hp : strLower name = "p"
        · rw [if_pos hp]
          by_cases himgs : countTagDesc "img" (.tag name attrs children) > 0
          · rw [if_pos himgs]
            intro e he
            rw [List.mem_singleton] at he
            subst he
            exact add_nonneg (calculateParagraphHeight_nonneg cfg _)
              (nat_cast_mul_nonneg _ _ (by decide))
          · rw [if_neg himgs]
            by_cases hany : children.toList.any isPagebreakMarker
            · rw [if_pos hany]
              exact pSubElements_nonneg cfg children.toList
            · rw [if_neg hany]
              by_cases htxt : (getTextStrip (.tag name attrs children)).isEmpty
              · simp [htxt]
              · rw [if_neg htxt]
                intro e he
                rw [List.mem_singleton] at he
                subst he
                exact calculateParagraphHeight_nonneg cfg _
        · rw [if_neg hp]
          by_cases hul : strLower name = "ul" ∨ strLower name = "ol"
          · rw [if_pos (by simpa using hul)]
            intro e he
            rw [List.mem_singleton] at he
            subst he
            refine add_nonneg (add_nonneg ?_ ?_) (by decide)
            · exact nat_cast_mul_nonneg _ _ (by decide)
            · exact nat_cast_mul_nonneg _ _ (by decide)
          · rw [if_neg (by simpa using hul)]
            by_cases hpre : strLower name = "pre"
            · rw [if_pos hpre]
              intro e he
              rw [List.mem_singleton] at he
              subst he
              refine add_nonneg (add_nonneg (by decide) ?_) (by decide)
              refine mul_nonneg ?_ (by decide)
              have := Int.ofNat_nonneg
                (List.count '\n' (getTextRaw (.tag name attrs children)).data)
              omega
            · rw [if_neg hpre]
              by_cases hbq : strLower name = "blockquote"
              · rw [if_pos hbq]
                intro e he
                rw [List.mem_singleton] at he
                subst he
                exact add_nonneg (calculateBlockquoteHeight_nonneg cfg _)
                  (nat_cast_mul_nonneg _ _ (by decide))
              · rw [if_neg hbq]
                by_cases htb : strLower name = "table"
                · rw [if_pos htb]
                  intro e he
                  rw [List.mem_singleton] at he
                  subst he
                  dsimp only
                  have h45 : elementHeights "table_header" = 45 := by decide
                  have h40 : elementHeights "table_row" = 40 := by decide
                  have h20 : elementHeights "margin_bottom" = 20 := by decide
                  rw [h45, h40, h20]
                  have hth := Int.ofNat_nonneg
                    (countTagDesc "th" (Node.tag name attrs children))
                  have htr := Int.ofNat_nonneg
                    (countTagDesc "tr" (Node.tag name attrs children))
                  nlinarith
                · rw [if_neg htb]
                  by_cases hhr : strLower name = "hr"
                  · rw [if_pos hhr]
                    intro e he
                    rw [List.mem_singleton] at he
                    subst he
                    exact (by decide : (0 : Int) ≤ elementHeights "hr")
                  · rw [if_neg hhr]
                    by_cases hct : containerTags.contains (strLower name) = true
                    · rw [if_pos hct]
                      by_cases hdir : children.toList.countP isImgTag > 0
                      · rw [if_pos hdir]
                        intro e he
                        rw [List.mem_singleton] at he
                        subst he
                        refine add_nonneg ?_ (nat_cast_mul_nonneg _ _ (by decide))
                        split
                        · exact le_refl 0
                        · exact calculateTextHeight_nonneg cfg _
                      · rw [if_neg hdir]
                        apply flattenParseList_nonneg cfg children hlow'
                        intro m hm
                        have hcp : children.toList.countP isImgTag = 0 := by omega
                        have := List.countP_eq_zero.mp hcp m hm
                        simpa using this
                    · rw [if_neg hct]
                      by_cases himgs : countTagDesc "img" (.tag name attrs children) > 0
                      · rw [if_pos himgs]
                        intro e he
                        rw [List.mem_singleton] at he
                        subst he
                        refine add_nonneg ?_ (nat_cast_mul_nonneg _ _ (by decide))
                        split
                        · exact le_refl 0
                        · exact calculateTextHeight_nonneg cfg _
                      · rw [if_neg himgs]
                        have hrec : ∀ m ∈ children.toList, isImgTag m = false := by
                          intro m hm
                          apply not_img_of_no_count m
                            (namesLowerList_toList children hlow' m hm)
                          have hc0 : countTagInList "img" children = 0 := by
                            rw [countTagDesc] at himgs
                            omega
                          have := countTagInList_toList "img" children m hm
                          omega
                        by_cases htxt : (getTextStrip (.tag name attrs children)).isEmpty
                        · rw [if_neg (by simpa using htxt)]
                          exact flattenParseList_nonneg cfg children hlow' hrec
                        · rw [if_pos (by simpa using htxt)]
                          by_cases hkids : (flattenParseList cfg children).isEmpty
                          · rw [if_pos hkids]
                            intro e he
                            rw [List.mem_singleton] at he
                            subst he
                            exact calculateTextHeight_nonneg cfg _
                          · rw [if_neg hkids]
                            exact flattenParseList_nonneg cfg children hlow' hrec
      · dsimp only
        intro e he
        rw [List.mem_singleton] at he
        subst he
        exact headingHeights_nonneg (strLower name) lvl hhl
/-- List version of `flattenParse_nonneg`. -/
theorem flattenParseList_nonneg : ∀ (cfg : Config) (ns : NodeList),
    namesLowerList ns = true → (∀ m ∈ ns.toList, isImgTag m = false) →
    ∀ e ∈ flattenParseList cfg ns, 0 ≤ e.height
  | _cfg, .nil, _, _ => by
    rw [flattenParseList]
    intro e he
    exact absurd he (List.not_mem_nil e)
  | cfg, .cons n ns, hlow, himg => by
    rw [flattenParseList]
    rw [namesLowerList, Bool.and_eq_true] at hlow
    intro e he
    rcases List.mem_append.mp he with he | he
    · exact flattenParse_nonneg cfg n hlow.1
        (himg n (by rw [NodeList.toList]; exact List.mem_cons_self n ns.toList)) e he
    · exact flattenParseList_nonneg cfg ns hlow.2
        (fun m hm => himg m (by rw [NodeList.toList]; exact List.mem_cons_of_mem n hm)) e he
end

/-- Heights from `parse_html_to_elements` are nonnegative on
parser-normalized documents. -/
theorem parseHtmlToElements_nonneg (cfg : Config) (doc : List Node)
    (hlow : namesLowerList (nodesOf doc) = true) :
    ∀ e ∈ parseHtmlToElements cfg doc, 0 ≤ e.height := by
  apply flattenParse_nonneg cfg _ _ (by simp [isImgTag]; decide)
  rw [namesLower, Bool.and_eq_true]
  exact ⟨by decide, hlow⟩

end RedBookCards

namespace RedBookCards

theorem step_currentHeight_nonneg (cfg : Config) (s : PagState) (e : PageElement)
    (hs : 0 ≤ s.currentHeight) (he : 0 ≤ e.height) :
    0 ≤ (step cfg s e).currentHeight := by
  by_cases hpb : e.type = EType.pagebreak
  · by_cases hc : s.current = []
    · by_cases hcb : s.consecutiveBreaks = 0
      · rw [step_pb_skip cfg s e hpb hc hcb]; exact hs
      · rw [step_pb_empty_page cfg s e hpb hc (by omega)]
    · rw [step_pb_seal cfg s e hpb hc]
  · by_cases hh : e.type = EType.heading ∧
        cfg.contentHeight < s.currentHeight + e.height + cfg.headingKeepWith ∧
        ¬ s.current = []
    · rw [step_heading_seal_eq cfg s e hh.1 hh.2.2 hh.2.1]; exact he
    · by_cases hov : s.currentHeight + e.height > cfg.contentHeight
      · rw [step_overflow_eq cfg s e hpb hov]; exact he
      · rw [step_append_eq cfg s e hpb hh hov]
        dsimp only
        omega

theorem foldl_currentHeight_nonneg (cfg : Config) (elems : List PageElement)
    (hnn : ∀ e ∈ elems, 0 ≤ e.height) :
    ∀ s : PagState, 0 ≤ s.currentHeight →
      0 ≤ (elems.foldl (step cfg) s).currentHeight := by
  induction elems with
  | nil => intro s hs; simpa using hs
  | cons e es ih =>
    intro s hs
    rw [List.foldl_cons]
    exact ih (fun f hf => hnn f (List.mem_cons_of_mem e hf)) _
      (step_currentHeight_nonneg cfg s e hs (hnn e (List.mem_cons_self e es)))

/-- A lone oversized block on the accumulator is sealed alone by whatever
element comes next. -/
theorem step_seals_oversized (cfg : Config) (s : PagState) (f : PageElement)
    (pg : List PageElement) (hcur : s.current = pg) (hpg : pg ≠ [])
    (hch : s.currentHeight > cfg.contentHeight) (hf : 0 ≤ f.height) :
    pg ∈ (step cfg s f).pages := by
  have hc : ¬ s.current = [] := by rw [hcur]; exact hpg
  by_cases hpb : f.type = EType.pagebreak
  · rw [step_pb_seal cfg s f hpb hc]
    dsimp only
    rw [← hcur]
    exact List.mem_append_right _ (List.mem_singleton.mpr rfl)
  · by_cases hh : f.type = EType.heading ∧
        cfg.contentHeight < s.currentHeight + f.height + cfg.headingKeepWith ∧
        ¬ s.current = []
    · rw [step_heading_seal_eq cfg s f hh.1 hh.2.2 hh.2.1]
      dsimp only
      rw [← hcur]
      exact List.mem_append_right _ (List.mem_singleton.mpr rfl)
    · have hov : s.currentHeight + f.height > cfg.contentHeight := by omega
      rw [step_overflow_eq cfg s f hpb hov]
      dsimp only
      rw [if_neg hc, ← hcur]
      exact List.mem_append_right _ (List.mem_singleton.mpr rfl)

theorem paginateBlocks_mem (cfg : Config) (elems : List PageElement)
    (pg : List PageElement) (hp : pg ∈ (runPaginate cfg elems).pages) :
    pg ∈ paginateBlocks cfg elems := by
  unfold paginateBlocks
  by_cases hc : (runPaginate cfg elems).current.isEmpty
  · rw [if_pos hc]; exact hp
  · rw [if_neg hc]; exact List.mem_append_left _ hp

theorem paginateBlocks_mem_current (cfg : Config) (elems : List PageElement)
    (pg : List PageElement) (hc : (runPaginate cfg elems).current = pg)
    (hne : pg ≠ []) : pg ∈ paginateBlocks cfg elems := by
  unfold paginateBlocks
  rw [if_neg (by rw [hc]; simpa using hne), hc]
  exact List.mem_append_right _ (List.mem_singleton.mpr rfl)

/-- Core of the oversized-block claim: a non-pagebreak element taller than
the content box ends up alone on its own page, provided all element heights
are nonnegative (which classifier output satisfies). -/
theorem oversized_alone (cfg : Config) (xs : List PageElement) (e : PageElement)
    (ys : List PageElement)
    (hnn : ∀ f ∈ xs ++ e :: ys, 0 ≤ f.height)
    (hpb : e.type ≠ EType.pagebreak)
    (hh : e.height > cfg.contentHeight) :
    [e] ∈ paginateBlocks cfg (xs ++ e :: ys) := by
  have hnn_xs : ∀ f ∈ xs, 0 ≤ f.height :=
    fun f hf => hnn f (List.mem_append_left _ hf)
  have hs0 : 0 ≤ (xs.foldl (step cfg) initState).currentHeight :=
    foldl_currentHeight_nonneg cfg xs hnn_xs initState (le_refl 0)
  have hov : (xs.foldl (step cfg) initState).currentHeight + e.height >
      cfg.contentHeight := by omega
  have hstep := step_overflow_eq cfg (xs.foldl (step cfg) initState) e hpb hov
  have hrun : runPaginate cfg (xs ++ e :: ys) =
      ys.foldl (step cfg) (step cfg (xs.foldl (step cfg) initState) e) := by
    unfold runPaginate
    rw [List.foldl_append, List.foldl_cons]
  cases ys with
  | nil =>
    apply paginateBlocks_mem_current cfg (xs ++ e :: []) [e] _ (by simp)
    rw [hrun, List.foldl_nil, hstep]
  | cons f ys' =>
    apply paginateBlocks_mem cfg (xs ++ e :: f :: ys') [e]
    rw [hrun, List.foldl_cons]
    apply foldl_pages_mem
    apply step_seals_oversized cfg _ f [e]
    · rw [hstep]
    · simp
    · rw [hstep]; dsimp only; omega
    · exact hnn f (by simp)

end RedBookCards

namespace RedBookCards

/-- When every page is forced or is the final non-blank page, the optimizer
loop keeps the list unchanged. -/
theorem optLoop_keep_all (cfg : Config) (reparse : String → List Node)
    (pages : List String) (forced : List Nat)
    (hall : ∀ j, j < pages.length → j ∈ forced ∨
      (pyIsBlank (pages.getD j "") = false ∧ j = pages.length - 1)) :
    ∀ fuel i, pages.length ≤ fuel + i →
      optLoop cfg reparse pages forced fuel i = pages.drop i := by
  intro fuel
  induction fuel with
  | zero =>
    intro i h
    rw [optLoop_zero, List.drop_eq_nil_of_le (by omega)]
  | succ fuel ih =>
    intro i hle
    by_cases hi : i < pages.length
    · have hdrop := drop_getD_cons pages i hi ""
      rcases hall i hi with hf | ⟨hb, hlast⟩
      · rw [optLoop_forced cfg reparse pages forced fuel i hi hf, hdrop,
          ih (i + 1) (by omega)]
      · have hf : i ∉ forced ∨ i ∈ forced := by tauto
        rcases hf with hf | hf
        · rcases optLoop_nonforced cfg reparse pages forced fuel i hi hf hb with
            heq | ⟨hi2, _⟩
          · rw [heq, hdrop, ih (i + 1) (by omega)]
          · omega
        · rw [optLoop_forced cfg reparse pages forced fuel i hi hf, hdrop,
            ih (i + 1) (by omega)]
    · rw [optLoop_out cfg reparse pages forced fuel i hi,
        List.drop_eq_nil_of_le (by omega)]

theorem optimizePages_keep_all (cfg : Config) (reparse : String → List Node)
    (forced : List Nat) (pages : List String)
    (hall : ∀ j, j < pages.length → j ∈ forced ∨
      (pyIsBlank (pages.getD j "") = false ∧ j = pages.length - 1)) :
    optimizePages cfg reparse forced pages = pages := by
  unfold optimizePages
  by_cases hlen : pages.length ≤ 1
  · rw [if_pos hlen]
  · rw [if_neg hlen]
    rw [optLoop_keep_all cfg reparse pages forced hall pages.length 0 (by omega)]
    rw [List.drop_zero]
    rw [if_neg (by intro h; rw [List.isEmpty_iff] at h; rw [h] at hlen; simp at hlen)]

end RedBookCards

namespace RedBookCards

/-- The normalized page-break marker div emitted by the Markdown
preprocessor. -/
def markerDiv : Node :=
  .tag "div" [("class", "pagebreak-marker"), ("data-pagebreak", "true")] .nil

/-- `<p>A</p>`. -/
def paraA : Node := .tag "p" [] (.cons (.text "A") .nil)

/-- `<p>B</p>`. -/
def paraB : Node := .tag "p" [] (.cons (.text "B") .nil)

/-- `<p>A</p><div class="pagebreak-marker" ...></div><p>B</p>`. -/
def docAB : List Node := [paraA, markerDiv, paraB]

/-- Paragraph A, two consecutive markers, paragraph B. -/
def docABB : List Node := [paraA, markerDiv, markerDiv, paraB]

/-- C1 counterexample: for the input consisting of a single page-break
marker, classification yields zero non-PageBreak blocks, yet `paginate`
falls back to returning the raw input HTML (its `if not pages` branch), so
the pipeline output contains the marker markup instead of the empty
concatenation — the marker is not consumed and extra content appears. -/
theorem claim_C1_counterexample :
    pipelineRun (mkConfig "medium") (fun _ => []) [markerDiv] =
      ["<div class=\x22pagebreak-marker\x22 data-pagebreak=\x22true\x22></div>"] ∧
    (parseHtmlToElements (mkConfig "medium") [markerDiv]).filter isContentElem = [] ∧
    stripNl (concatAll (pipelineRun (mkConfig "medium") (fun _ => []) [markerDiv])) ≠
      stripNl (nonPagebreakContents (mkConfig "medium") [markerDiv]) := by
  decide

/-- C1 (amended): for every HTML input whose classification yields at
least one non-PageBreak block, the concatenation of all output pages' HTML
after `paginate` and `optimize_pages` — page boundaries and the newline
separators `_elements_to_html` inserts between blocks disregarded —
reproduces exactly those blocks' HTML in order: nothing is lost,
duplicated, or reordered, and only PageBreak markers are consumed.  (When
classification yields no non-PageBreak block the fallback
`return [html_content]` can emit the raw input, marker markup included —
see the counterexample.)  Quantified over every string-to-tree re-parse
function the optimizer might use. -/
theorem claim_C1_amended (cfg : Config) (reparse : String → List Node)
    (doc : List Node)
    (hcontent : ∃ e ∈ parseHtmlToElements cfg doc, isContentElem e = true) :
    stripNl (concatAll (pipelineRun cfg reparse doc)) =
    stripNl (nonPagebreakContents cfg doc) :=
  pipeline_content_preservation cfg reparse doc hcontent

theorem claim_C1_witness :
    (∃ e ∈ parseHtmlToElements (mkConfig "medium") docAB, isContentElem e = true) ∧
    stripNl (concatAll (pipelineRun (mkConfig "medium") (fun _ => []) docAB)) =
      stripNl (nonPagebreakContents (mkConfig "medium") docAB) :=
  ⟨by decide, claim_C1_amended (mkConfig "medium") (fun _ => []) docAB (by decide)⟩

/-- C2: the input `<p>A</p>` + marker + `<p>B</p>` classifies as
paragraph/pagebreak/paragraph, both paragraphs together fit nine times
over in the content height, and the full pipeline yields exactly two
pages: page 1 holds only A's paragraph and page 2 only B's paragraph —
for every re-parse function the optimizer might use. -/
theorem claim_C2_forced_break_exactness (reparse : String → List Node) :
    pipelineRun (mkConfig "medium") reparse docAB = ["<p>A</p>", "<p>B</p>"] ∧
    (parseHtmlToElements (mkConfig "medium") docAB).map (fun e => e.type) =
      [EType.paragraph, EType.pagebreak, EType.paragraph] ∧
    9 * sumHeights (parseHtmlToElements (mkConfig "medium") docAB) ≤
      (mkConfig "medium").contentHeight := by
  refine ⟨?_, by decide, by decide⟩
  have hpag : paginate (mkConfig "medium") docAB = (["<p>A</p>", "<p>B</p>"], [0]) := by
    decide
  unfold pipelineRun
  rw [hpag]
  exact optimizePages_keep_all (mkConfig "medium") reparse [0] ["<p>A</p>", "<p>B</p>"]
    (by decide)

theorem claim_C2_witness :
    pipelineRun (mkConfig "medium") (fun _ => []) docAB = ["<p>A</p>", "<p>B</p>"] :=
  (claim_C2_forced_break_exactness (fun _ => [])).1

/-- C3: the input `<p>A</p>` + marker + marker + `<p>B</p>` yields exactly
three pages with the middle one empty; the two pages sealed by the markers
(indexes 0 and 1, the empty one included) are recorded as forced and both
survive optimization — for every re-parse function the optimizer might
use. -/
theorem claim_C3_double_break_empty_page (reparse : String → List Node) :
    pipelineRun (mkConfig "medium") reparse docABB = ["<p>A</p>", "", "<p>B</p>"] ∧
    (paginate (mkConfig "medium") docABB).2 = [0, 1] := by
  refine ⟨?_, by decide⟩
  have hpag : paginate (mkConfig "medium") docABB =
      (["<p>A</p>", "", "<p>B</p>"], [0, 1]) := by decide
  unfold pipelineRun
  rw [hpag]
  exact optimizePages_keep_all (mkConfig "medium") reparse [0, 1]
    ["<p>A</p>", "", "<p>B</p>"] (by decide)

theorem claim_C3_witness :
    pipelineRun (mkConfig "medium") (fun _ => []) docABB =
      ["<p>A</p>", "", "<p>B</p>"] :=
  (claim_C3_double_break_empty_page (fun _ => [])).1

/-- C4 counterexample: on a page list the optimization pass empties (two
non-forced whitespace pages), `optimize_pages` returns `['']` — a single
empty page — not the original unoptimized list as the claim states.  (The
re-parse function is never consulted: blank pages are dropped before any
height estimation.) -/
theorem claim_C4_counterexample :
    optimizePages (mkConfig "medium") (fun _ => []) [] [" ", " "] = [""] ∧
    ([""] : List String) ≠ [" ", " "] ∧ ([""] : List String) ≠ [] := by
  decide

/-- C4 (amended): for every input page list of length at least two on
which the optimization pass eliminates every page (each page non-forced
and empty or whitespace-only), `optimize_pages` returns `['']` — a single
empty-string page, never an empty list (and not the original input). -/
theorem claim_C4_amended (cfg : Config) (reparse : String → List Node)
    (forced : List Nat) (pages : List String)
    (hlen : 2 ≤ pages.length)
    (hall : ∀ j, j < pages.length → j ∉ forced ∧ pyIsBlank (pages.getD j "") = true) :
    optimizePages cfg reparse forced pages = [""] := by
  unfold optimizePages
  rw [if_neg (by omega)]
  rw [optLoop_all_blank cfg reparse pages forced hall pages.length 0]
  rfl

theorem claim_C4_witness :
    (2 ≤ ([" ", " "] : List String).length ∧
      ∀ j, j < ([" ", " "] : List String).length → j ∉ ([] : List Nat) ∧
        pyIsBlank (([" ", " "] : List String).getD j "") = true) ∧
    optimizePages (mkConfig "medium") (fun _ => []) [] [" ", " "] = [""] :=
  ⟨⟨by decide, by decide⟩,
    claim_C4_amended (mkConfig "medium") (fun _ => []) [] [" ", " "]
      (by decide) (by decide)⟩

/-- The tree the real string-to-tree parser produces on the two page
strings appearing in the C5 counterexample and witness (`BeautifulSoup`
parses `"<p>a</p>"` to a single `p` tag holding the text `a`, and a
whitespace-only string to a single text node). -/
def reparseC5 : String → List Node := fun s =>
  if s = "<p>a</p>" then [.tag "p" [] (.cons (.text "a") .nil)]
  else if s = " " then [.text " "] else []

/-- C5 counterexample: pages `["<p>a</p>", " "]`, neither forced, first
not last, both re-estimated heights (73 and 0) below the 40% merge
threshold (530 of 1325), combined height within the content height — yet
the pass does not combine them into one page: the blank second page fails
the `next_page.strip()` check, the first page is kept alone, and the blank
page is then dropped. -/
theorem claim_C5_counterexample :
    (0 ∉ ([] : List Nat) ∧ 1 ∉ ([] : List Nat) ∧
      (0 : Nat) < (["<p>a</p>", " "] : List String).length - 1 ∧
      100 * reEstimate (mkConfig "medium") reparseC5 "<p>a</p>" <
        mergeThresholdNum (mkConfig "medium") * (mkConfig "medium").contentHeight ∧
      100 * reEstimate (mkConfig "medium") reparseC5 " " <
        mergeThresholdNum (mkConfig "medium") * (mkConfig "medium").contentHeight ∧
      reEstimate (mkConfig "medium") reparseC5 "<p>a</p>" +
        reEstimate (mkConfig "medium") reparseC5 " " ≤
          (mkConfig "medium").contentHeight) ∧
    optimizePages (mkConfig "medium") reparseC5 [] ["<p>a</p>", " "] = ["<p>a</p>"] ∧
    optimizePages (mkConfig "medium") reparseC5 [] ["<p>a</p>", " "] ≠
      ["<p>a</p>" ++ " "] := by
  decide

/-- C5 (amended): in the optimization pass, for every adjacent pair at
positions `i`, `i+1` where neither page is forced, the first is not the
last page, both pages are non-blank, each page's re-estimated height is
below the merge-threshold fraction of content height (35/100 for the
small preset, 40/100 otherwise, per `mergeThresholdNum`), and their
combined height is at most the content height, the pass combines the two
pages into one; and a forced page is always passed through unchanged, so
two adjacent forced pages are never combined regardless of height. -/
theorem claim_C5_amended (cfg : Config) (reparse : String → List Node)
    (pages : List String) (forced : List Nat) (fuel i : Nat)
    (hb1 : pyIsBlank (pages.getD i "") = false)
    (hb2 : pyIsBlank (pages.getD (i + 1) "") = false)
    (hf1 : i ∉ forced) (hf2 : (i + 1) ∉ forced)
    (hlast : i < pages.length - 1)
    (hth1 : 100 * reEstimate cfg reparse (pages.getD i "") <
      mergeThresholdNum cfg * cfg.contentHeight)
    (_hth2 : 100 * reEstimate cfg reparse (pages.getD (i + 1) "") <
      mergeThresholdNum cfg * cfg.contentHeight)
    (hsum : reEstimate cfg reparse (pages.getD i "") +
      reEstimate cfg reparse (pages.getD (i + 1) "") ≤ cfg.contentHeight) :
    optLoop cfg reparse pages forced (fuel + 1) i =
      (pages.getD i "" ++ pages.getD (i + 1) "") ::
        optLoop cfg reparse pages forced fuel (i + 2) ∧
    ∀ (fuel' i' : Nat), i' ∈ forced → i' < pages.length →
      optLoop cfg reparse pages forced (fuel' + 1) i' =
        pages.getD i' "" :: optLoop cfg reparse pages forced fuel' (i' + 1) := by
  constructor
  · exact optLoop_merge cfg reparse pages forced fuel i (by omega) hf1 hb1 hth1
      hlast hf2 hb2 hsum
  · intro fuel' i' hf hi
    exact optLoop_forced cfg reparse pages forced fuel' i' hi hf

theorem claim_C5_witness :
    optLoop (mkConfig "medium") reparseC5 ["<p>a</p>", "<p>a</p>"] [] (1 + 1) 0 =
      ((["<p>a</p>", "<p>a</p>"] : List String).getD 0 "" ++
        (["<p>a</p>", "<p>a</p>"] : List String).getD (0 + 1) "") ::
        optLoop (mkConfig "medium") reparseC5 ["<p>a</p>", "<p>a</p>"] [] 1 (0 + 2) :=
  (claim_C5_amended (mkConfig "medium") reparseC5 ["<p>a</p>", "<p>a</p>"] [] 1 0
    (by decide) (by decide) (by decide) (by decide) (by decide) (by decide)
    (by decide) (by decide)).1

end RedBookCards

namespace RedBookCards

/-- An `<h1>` heading element as the classifier emits it (90 px base plus
20 px margin). -/
def h1Elem : PageElement :=
  { type := .heading, content := "<h1>T</h1>", text := "T", level := 1,
    height := 110, canBreak := false }

/-- A small text block used in witness states. -/
def smallText : PageElement :=
  { type := .text, content := "<p>x</p>", text := "x", height := 53 }

/-- C6: `HEADING_KEEP_WITH` is 100/150/200 px for the small/medium/large
presets; whenever a heading arrives with a non-empty current page and
`currentHeight + headingHeight + HEADING_KEEP_WITH` exceeds the content
height, the current page is sealed (unforced) and the heading becomes the
first block of the next page; and when the test passes (with the
constant nonnegative, as in every preset) the heading is appended with at
least `HEADING_KEEP_WITH` px left below it on the page. -/
theorem claim_C6_heading_keepwith :
    ((mkConfig "small").headingKeepWith = 100 ∧
      (mkConfig "medium").headingKeepWith = 150 ∧
      (mkConfig "large").headingKeepWith = 200) ∧
    (∀ (cfg : Config) (s : PagState) (e : PageElement),
      e.type = EType.heading → s.current ≠ [] →
      s.currentHeight + e.height + cfg.headingKeepWith > cfg.contentHeight →
      step cfg s e =
        { pages := s.pages ++ [s.current]
          forced := s.forced
          current := [e]
          currentHeight := e.height
          consecutiveBreaks := 0 }) ∧
    (∀ (cfg : Config) (s : PagState) (e : PageElement),
      0 ≤ cfg.headingKeepWith →
      e.type = EType.heading → s.current ≠ [] →
      ¬ s.currentHeight + e.height + cfg.headingKeepWith > cfg.contentHeight →
      step cfg s e =
        { s with
          current := s.current ++ [e]
          currentHeight := s.currentHeight + e.height
          consecutiveBreaks := 0 } ∧
      cfg.headingKeepWith ≤ cfg.contentHeight - (s.currentHeight + e.height)) := by
  refine ⟨by decide, ?_, ?_⟩
  · intro cfg s e he hc hkw
    exact step_heading_seal_eq cfg s e he hc hkw
  · intro cfg s e hk he hc hkw
    have hov : ¬ s.currentHeight + e.height > cfg.contentHeight := by omega
    have hh : ¬ (e.type = EType.heading ∧
        cfg.contentHeight < s.currentHeight + e.height + cfg.headingKeepWith ∧
        ¬ s.current = []) := by
      intro h
      exact hkw h.2.1
    have hpb : e.type ≠ EType.pagebreak := by rw [he]; decide
    exact ⟨step_append_eq cfg s e hpb hh hov, by omega⟩

theorem claim_C6_witness :
    step (mkConfig "medium") ⟨[], [], [smallText], 1200, 0⟩ h1Elem =
      ⟨[[smallText]], [], [h1Elem], 110, 0⟩ ∧
    (step (mkConfig "medium") ⟨[], [], [smallText], 100, 0⟩ h1Elem =
      ⟨[], [], [smallText, h1Elem], 210, 0⟩ ∧
      (mkConfig "medium").headingKeepWith ≤
        (mkConfig "medium").contentHeight - (100 + 110)) := by
  constructor
  · have h := claim_C6_heading_keepwith.2.1 (mkConfig "medium")
      ⟨[], [], [smallText], 1200, 0⟩ h1Elem (by decide) (by decide) (by decide)
    rw [h]
    decide
  · have h := claim_C6_heading_keepwith.2.2 (mkConfig "medium")
      ⟨[], [], [smallText], 100, 0⟩ h1Elem (by decide) (by decide) (by decide)
      (by decide)
    constructor
    · rw [h.1]
      decide
    · exact h.2

/-- A paragraph taller than the medium content box. -/
def bigPara : PageElement :=
  { type := .paragraph, content := "<p>big</p>", text := "big", height := 1400 }

/-- C7: `_try_split_paragraph` always reports failure, so paragraph
splitting is never performed and no block is ever emitted in two parts;
consequently, whenever a non-PageBreak block's height added to
`currentHeight` exceeds the content height, the current page (if
non-empty) is sealed and the whole block becomes the sole first element
of the next page. -/
theorem claim_C7_overflow_whole_block :
    (∀ (e : PageElement) (ah : Int), trySplitParagraph e ah = none) ∧
    (∀ (cfg : Config) (s : PagState) (e : PageElement),
      e.type ≠ EType.pagebreak →
      s.currentHeight + e.height > cfg.contentHeight →
      step cfg s e =
        { pages := s.pages ++ (if s.current = [] then [] else [s.current])
          forced := s.forced
          current := [e]
          currentHeight := e.height
          consecutiveBreaks := 0 }) :=
  ⟨fun _ _ => rfl, fun cfg s e hpb hov => step_overflow_eq cfg s e hpb hov⟩

theorem claim_C7_witness :
    trySplitParagraph bigPara 100 = none ∧
    step (mkConfig "medium") ⟨[], [], [smallText], 53, 0⟩ bigPara =
      ⟨[[smallText]], [], [bigPara], 1400, 0⟩ := by
  constructor
  · exact claim_C7_overflow_whole_block.1 bigPara 100
  · have h := claim_C7_overflow_whole_block.2 (mkConfig "medium")
      ⟨[], [], [smallText], 53, 0⟩ bigPara (by decide) (by decide)
    rw [h]
    decide

/-- C8: for every parser-normalized document (lower-case tag names, as
`html.parser` guarantees) and every non-PageBreak block of its
classification whose estimated height exceeds the entire content height,
the pagination run — a total function, so it always terminates without
signaling an error — seals that block alone on its own page: some output
page is exactly `[e]`, so the block is never dropped. -/
theorem claim_C8_oversized_alone (cfg : Config) (doc : List Node)
    (hlow : namesLowerList (nodesOf doc) = true)
    (xs : List PageElement) (e : PageElement) (ys : List PageElement)
    (hsplit : parseHtmlToElements cfg doc = xs ++ e :: ys)
    (hpb : e.type ≠ EType.pagebreak)
    (hh : e.height > cfg.contentHeight) :
    [e] ∈ paginateBlocks cfg (parseHtmlToElements cfg doc) := by
  have hnn : ∀ f ∈ xs ++ e :: ys, 0 ≤ f.height := by
    rw [← hsplit]
    exact parseHtmlToElements_nonneg cfg doc hlow
  rw [hsplit]
  exact oversized_alone cfg xs e ys hnn hpb hh

/-- A `<pre>` block holding forty newlines: 40 + 41·24 + 20 = 1044 px,
taller than the small preset's 875 px content box. -/
def bigPre : Node := .tag "pre" [] (.cons (.text (String.mk (List.replicate 40 '\n'))) .nil)

/-- The element the classifier emits for `bigPre`. -/
def bigPreElem : PageElement :=
  { type := .code, content := renderNode bigPre, text := getTextRaw bigPre,
    height := 1044, canBreak := true }

theorem claim_C8_witness :
    bigPreElem.height > (mkConfig "small").contentHeight ∧
    [bigPreElem] ∈
      paginateBlocks (mkConfig "small")
        (parseHtmlToElements (mkConfig "small") [bigPre]) :=
  ⟨by decide,
    claim_C8_oversized_alone (mkConfig "small") [bigPre] (by decide) [] bigPreElem []
      (by decide) (by decide) (by decide)⟩

end RedBookCards

namespace RedBookCards

theorem isPagebreakMarker_ne_div (name : String) (attrs : List (String × String))
    (children : NodeList) (h : strLower name ≠ "div") :
    isPagebreakMarker (.tag name attrs children) = false := by
  rw [isPagebreakMarker]
  rw [decide_eq_false h, Bool.false_and]

/-- A two-column table: one header row with two `th` cells, one body row
with two `td` cells. -/
def tbl2kids : NodeList :=
  .cons (.tag "tr" [] (.cons (.tag "th" [] (.cons (.text "a") .nil))
    (.cons (.tag "th" [] (.cons (.text "b") .nil)) .nil)))
  (.cons (.tag "tr" [] (.cons (.tag "td" [] (.cons (.text "c") .nil))
    (.cons (.tag "td" [] (.cons (.text "d") .nil)) .nil)))
  .nil)

/-- See `tbl2kids`. -/
def tbl2 : Node := .tag "table" [] tbl2kids

/-- C9 counterexample: a table with one header row (two `th` cells) and
one body row gets estimated height 2·45 + (2−2)·40 + 20 = 110 px, because
the code counts `th` cells (`len(find_all('th'))`), not header rows; the
claimed formula — header-row count × 45 + body-row count × 40 + 20 —
gives 1·45 + 1·40 + 20 = 105 px. -/
theorem claim_C9_counterexample :
    countTagDesc "tr" tbl2 = 2 ∧ countTagDesc "th" tbl2 = 2 ∧
    (flattenParse (mkConfig "medium") tbl2).map (fun e => e.height) = [110] ∧
    (110 : Int) ≠ 1 * 45 + 1 * 40 + 20 := by
  decide

/-- C9 (amended): for every table element the classifier's estimated
height equals the number of `th` cells times the header-row constant
(45 px) plus the difference between the `tr` count and the `th` count
times the body-row constant (40 px) plus the margin-bottom constant
(20 px), in signed arithmetic. -/
theorem claim_C9_amended (cfg : Config) (attrs : List (String × String))
    (children : NodeList) :
    flattenParse cfg (.tag "table" attrs children) =
      [{ type := EType.table
         content := renderNode (.tag "table" attrs children)
         text := getTextStrip (.tag "table" attrs children)
         height := (countTagDesc "th" (.tag "table" attrs children) : Int) * 45 +
           ((countTagDesc "tr" (.tag "table" attrs children) : Int) -
             (countTagDesc "th" (.tag "table" attrs children) : Int)) * 40 + 20
         canBreak := decide (countTagDesc "tr" (.tag "table" attrs children) > 5) }] := by
  rw [flattenParse]
  rw [if_neg (by simp [isPagebreakMarker_ne_div "table" attrs children (by decide)])]
  dsimp only
  rw [if_neg (show ¬ strLower "table" = "img" by decide)]
  rw [show headingLevel (strLower "table") = none from by decide]
  dsimp only
  rw [if_neg (show ¬ strLower "table" = "p" by decide)]
  rw [if_neg (by decide :
    ¬ (decide (strLower "table" = "ul") || decide (strLower "table" = "ol")) = true)]
  rw [if_neg (show ¬ strLower "table" = "pre" by decide)]
  rw [if_neg (show ¬ strLower "table" = "blockquote" by decide)]
  rw [if_pos (show strLower "table" = "table" from by decide)]
  rw [show elementHeights "table_header" = 45 from by decide,
    show elementHeights "table_row" = 40 from by decide,
    show elementHeights "margin_bottom" = 20 from by decide]

theorem claim_C9_witness :
    flattenParse (mkConfig "medium") (.tag "table" [] tbl2kids) =
      [{ type := EType.table
         content := renderNode (.tag "table" [] tbl2kids)
         text := getTextStrip (.tag "table" [] tbl2kids)
         height := (countTagDesc "th" (.tag "table" [] tbl2kids) : Int) * 45 +
           ((countTagDesc "tr" (.tag "table" [] tbl2kids) : Int) -
             (countTagDesc "th" (.tag "table" [] tbl2kids) : Int)) * 40 + 20
         canBreak := decide (countTagDesc "tr" (.tag "table" [] tbl2kids) > 5) }] :=
  claim_C9_amended (mkConfig "medium") [] tbl2kids

end RedBookCards

namespace RedBookCards

theorem flattenParse_img (cfg : Config) (attrs : List (String × String))
    (children : NodeList) :
    flattenParse cfg (.tag "img" attrs children) =
      [{ type := EType.image
         content := renderNode (.tag "img" attrs children)
         text := (lookupAttr attrs "alt").getD "图片"
         height := imgHeightEstimate cfg attrs + 20
         canBreak := false }] := by
  rw [flattenParse]
  rw [if_neg (by simp [isPagebreakMarker_ne_div "img" attrs children (by decide)])]
  dsimp only
  rw [if_pos (show strLower "img" = "img" from by decide)]
  rw [show elementHeights "margin_bottom" = 20 from by decide]

theorem flattenParse_p_imgs (cfg : Config) (attrs : List (String × String))
    (children : NodeList) (h : countTagDesc "img" (.tag "p" attrs children) > 0) :
    flattenParse cfg (.tag "p" attrs children) =
      [{ type := EType.paragraphWithImages
         content := renderNode (.tag "p" attrs children)
         text := getTextStrip (.tag "p" attrs children)
         height := calculateParagraphHeight cfg (getTextStrip (.tag "p" attrs children)) +
           (countTagDesc "img" (.tag "p" attrs children) : Int) * 350
         canBreak := false }] := by
  rw [flattenParse]
  rw [if_neg (by simp [isPagebreakMarker_ne_div "p" attrs children (by decide)])]
  dsimp only
  rw [if_neg (show ¬ strLower "p" = "img" by decide)]
  rw [show headingLevel (strLower "p") = none from by decide]
  dsimp only
  rw [if_pos (show strLower "p" = "p" from by decide)]
  rw [if_pos h]

theorem flattenParse_ul (cfg : Config) (attrs : List (String × String))
    (children : NodeList) :
    flattenParse cfg (.tag "ul" attrs children) =
      [{ type := EType.list
         content := renderNode (.tag "ul" attrs children)
         text := getTextStrip (.tag "ul" attrs children)
         height := (countTagDesc "li" (.tag "ul" attrs children) : Int) * 35 +
           (countTagDesc "img" (.tag "ul" attrs children) : Int) * 350 + 20
         canBreak := decide (countTagDesc "li" (.tag "ul" attrs children) > 3) &&
           decide (countTagDesc "img" (.tag "ul" attrs children) = 0) }] := by
  rw [flattenParse]
  rw [if_neg (by simp [isPagebreakMarker_ne_div "ul" attrs children (by decide)])]
  dsimp only
  rw [if_neg (show ¬ strLower "ul" = "img" by decide)]
  rw [show headingLevel (strLower "ul") = none from by decide]
  dsimp only
  rw [if_neg (show ¬ strLower "ul" = "p" by decide)]
  rw [if_pos (by decide :
    (decide (strLower "ul" = "ul") || decide (strLower "ul" = "ol")) = true)]
  rw [show elementHeights "li" = 35 from by decide,
    show elementHeights "margin_bottom" = 20 from by decide]

theorem flattenParse_blockquote (cfg : Config) (attrs : List (String × String))
    (children : NodeList) :
    flattenParse cfg (.tag "blockquote" attrs children) =
      [{ type := EType.blockquote
         content := renderNode (.tag "blockquote" attrs children)
         text := getTextStrip (.tag "blockquote" attrs children)
         height := calculateBlockquoteHeight cfg
             (getTextStrip (.tag "blockquote" attrs children)) +
           (countTagDesc "img" (.tag "blockquote" attrs children) : Int) * 350
         canBreak := decide (countTagDesc "img" (.tag "blockquote" attrs children) = 0) }] := by
  rw [flattenParse]
  rw [if_neg (by simp [isPagebreakMarker_ne_div "blockquote" attrs children (by decide)])]
  dsimp only
  rw [if_neg (show ¬ strLower "blockquote" = "img" by decide)]
  rw [show headingLevel (strLower "blockquote") = none from by decide]
  dsimp only
  rw [if_neg (show ¬ strLower "blockquote" = "p" by decide)]
  rw [if_neg (by decide :
    ¬ (decide (strLower "blockquote" = "ul") || decide (strLower "blockquote" = "ol")) = true)]
  rw [if_neg (show ¬ strLower "blockquote" = "pre" by decide)]
  rw [if_pos (show strLower "blockquote" = "blockquote" from by decide)]

theorem flattenParse_container_direct (cfg : Config) (attrs : List (String × String))
    (children : NodeList)
    (hmark : isPagebreakMarker (.tag "div" attrs children) = false)
    (hdir : children.toList.countP isImgTag > 0) :
    flattenParse cfg (.tag "div" attrs children) =
      [{ type := EType.containerWithImages
         content := renderNode (.tag "div" attrs children)
         text := getTextStrip (.tag "div" attrs children)
         height := (if (getTextStrip (.tag "div" attrs children)).isEmpty then 0
             else calculateTextHeight cfg (getTextStrip (.tag "div" attrs children))) +
           (children.toList.countP isImgTag : Int) * 350
         canBreak := false }] := by
  rw [flattenParse]
  rw [if_neg (by simp [hmark])]
  dsimp only
  rw [if_neg (show ¬ strLower "div" = "img" by decide)]
  rw [show headingLevel (strLower "div") = none from by decide]
  dsimp only
  rw [if_neg (show ¬ strLower "div" = "p" by decide)]
  rw [if_neg (by decide :
    ¬ (decide (strLower "div" = "ul") || decide (strLower "div" = "ol")) = true)]
  rw [if_neg (show ¬ strLower "div" = "pre" by decide)]
  rw [if_neg (show ¬ strLower "div" = "blockquote" by decide)]
  rw [if_neg (show ¬ strLower "div" = "table" by decide)]
  rw [if_neg (show ¬ strLower "div" = "hr" by decide)]
  rw [if_pos (show containerTags.contains (strLower "div") = true from by decide)]
  rw [if_pos hdir]

theorem imgHeightEstimate_parsed (cfg : Config) (attrs : List (String × String))
    (ws hs : String) (w h : Int)
    (hw : lookupAttr attrs "width" = some ws)
    (hh : lookupAttr attrs "height" = some hs)
    (hpw : pyInt ws = some w) (hph : pyInt hs = some h) :
    imgHeightEstimate cfg attrs =
      if w > cfg.contentWidth then (h * cfg.contentWidth).tdiv w else h := by
  rw [imgHeightEstimate, hw, hh]
  dsimp only
  rw [hpw, hph]

theorem imgHeightEstimate_fallback (cfg : Config) (attrs : List (String × String))
    (hcase : lookupAttr attrs "width" = none ∨ lookupAttr attrs "height" = none ∨
      (∃ ws hs, lookupAttr attrs "width" = some ws ∧
        lookupAttr attrs "height" = some hs ∧
        (pyInt ws = none ∨ pyInt hs = none))) :
    imgHeightEstimate cfg attrs = 350 := by
  rw [imgHeightEstimate]
  rcases hcase with hw | hh | ⟨ws, hs, hw, hh, hp⟩
  · rw [hw]
  · rw [hh]
    cases lookupAttr attrs "width" <;> rfl
  · rw [hw, hh]
    dsimp only
    rcases hp with hp | hp
    · rw [hp]
    · rw [hp]
      cases pyInt ws <;> rfl

end RedBookCards

namespace RedBookCards

/-- A `div` directly containing one `img`, plus a second `img` nested
inside a child paragraph. -/
def divImgKids : NodeList :=
  .cons (.tag "img" [("src", "a.png")] .nil)
  (.cons (.tag "p" [] (.cons (.tag "img" [("src", "b.png")] .nil) .nil))
  .nil)

/-- See `divImgKids`. -/
def divImg : Node := .tag "div" [] divImgKids

/-- C10 counterexample: a container holding two images — one a direct
child, one nested inside a child paragraph — is estimated at 350 px
(text height 0 plus 350 per DIRECT child image only), not the 700 px the
claim's "always contribute a flat 350 px each" would give: images nested
deeper inside a container that has a direct image contribute nothing. -/
theorem claim_C10_counterexample :
    countTagDesc "img" divImg = 2 ∧
    (flattenParse (mkConfig "medium") divImg).map (fun e => e.height) = [350] ∧
    (350 : Int) ≠ 2 * 350 := by
  decide

/-- C10 (amended): a standalone `img` element carrying `width` and
`height` attributes that parse as integers is estimated from the declared
dimensions — the declared height scaled by contentWidth/width (truncated)
when the declared width exceeds the content width, otherwise the declared
height unchanged — plus the 20 px margin; the fixed 350 px constant is
used (plus margin) exactly when either attribute is absent or
unparseable.  Images inside paragraphs, lists and blockquotes contribute
a flat 350 px each; a container (non-marker `div`) with at least one
direct child image contributes a flat 350 px per DIRECT child image only
(deeper-nested images in such a container add nothing — see the
counterexample). -/
theorem claim_C10_image_heights :
    (∀ (cfg : Config) (attrs : List (String × String)) (children : NodeList)
      (ws hs : String) (w h : Int),
      lookupAttr attrs "width" = some ws → lookupAttr attrs "height" = some hs →
      pyInt ws = some w → pyInt hs = some h →
      (flattenParse cfg (.tag "img" attrs children)).map (fun e => e.height) =
        [(if w > cfg.contentWidth then (h * cfg.contentWidth).tdiv w else h) + 20]) ∧
    (∀ (cfg : Config) (attrs : List (String × String)) (children : NodeList),
      (lookupAttr attrs "width" = none ∨ lookupAttr attrs "height" = none ∨
        (∃ ws hs, lookupAttr attrs "width" = some ws ∧
          lookupAttr attrs "height" = some hs ∧
          (pyInt ws = none ∨ pyInt hs = none))) →
      (flattenParse cfg (.tag "img" attrs children)).map (fun e => e.height) =
        [350 + 20]) ∧
    (∀ (cfg : Config) (attrs : List (String × String)) (children : NodeList),
      countTagDesc "img" (.tag "p" attrs children) > 0 →
      (flattenParse cfg (.tag "p" attrs children)).map (fun e => e.height) =
        [calculateParagraphHeight cfg (getTextStrip (.tag "p" attrs children)) +
          (countTagDesc "img" (.tag "p" attrs children) : Int) * 350]) ∧
    (∀ (cfg : Config) (attrs : List (String × String)) (children : NodeList),
      (flattenParse cfg (.tag "ul" attrs children)).map (fun e => e.height) =
        [(countTagDesc "li" (.tag "ul" attrs children) : Int) * 35 +
          (countTagDesc "img" (.tag "ul" attrs children) : Int) * 350 + 20]) ∧
    (∀ (cfg : Config) (attrs : List (String × String)) (children : NodeList),
      (flattenParse cfg (.tag "blockquote" attrs children)).map (fun e => e.height) =
        [calculateBlockquoteHeight cfg (getTextStrip (.tag "blockquote" attrs children)) +
          (countTagDesc "img" (.tag "blockquote" attrs children) : Int) * 350]) ∧
    (∀ (cfg : Config) (attrs : List (String × String)) (children : NodeList),
      isPagebreakMarker (.tag "div" attrs children) = false →
      children.toList.countP isImgTag > 0 →
      (flattenParse cfg (.tag "div" attrs children)).map (fun e => e.height) =
        [(if (getTextStrip (.tag "div" attrs children)).isEmpty then 0
          else calculateTextHeight cfg (getTextStrip (.tag "div" attrs children))) +
          (children.toList.countP isImgTag : Int) * 350]) := by
  refine ⟨?_, ?_, ?_, ?_, ?_, ?_⟩
  · intro cfg attrs children ws hs w h hw hh hpw hph
    rw [flattenParse_img, List.map_cons, List.map_nil,
      imgHeightEstimate_parsed cfg attrs ws hs w h hw hh hpw hph]
  · intro cfg attrs children hcase
    rw [flattenParse_img, List.map_cons, List.map_nil,
      imgHeightEstimate_fallback cfg attrs hcase]
  · intro cfg attrs children h
    rw [flattenParse_p_imgs cfg attrs children h, List.map_cons, List.map_nil]
  · intro cfg attrs children
    rw [flattenParse_ul, List.map_cons, List.map_nil]
  · intro cfg attrs children
    rw [flattenParse_blockquote, List.map_cons, List.map_nil]
  · intro cfg attrs children hmark hdir
    rw [flattenParse_container_direct cfg attrs children hmark hdir,
      List.map_cons, List.map_nil]

theorem claim_C10_witness :
    (flattenParse (mkConfig "medium")
      (.tag "img" [("src", "x.png"), ("width", "2000"), ("height", "600")] .nil)).map
        (fun e => e.height) =
      [(if (2000 : Int) > (mkConfig "medium").contentWidth
        then ((600 : Int) * (mkConfig "medium").contentWidth).tdiv 2000
        else (600 : Int)) + 20] :=
  claim_C10_image_heights.1 (mkConfig "medium")
    [("src", "x.png"), ("width", "2000"), ("height", "600")] .nil
    "2000" "600" 2000 600 (by decide) (by decide) (by decide) (by decide)

end RedBookCards
